import Mathlib

/-!
Verification of the Reflexsive CLI analysis pipeline (`src/reflexsive/cli`).

This file gives a shallow embedding of the data model (`info.py`), the
scanner's name-resolution helpers, the hierarchy resolver and the validator
(`helpers.py`), together with a spec-modelled stub merger (`stubgen.py` is
not part of the sources, only its tests are).

Modelling conventions:
* Python `str` is Lean `String`; `'.'.join` is `joinDot` below.
* Python sets/dicts that the code iterates over are modelled as lists in
  insertion order (CPython dicts preserve insertion order; for sets the
  iteration order is unspecified, and the list order stands for one such
  order).
* `pathlib.Path` values are modelled as already-resolved path strings, so
  `path.resolve()` is the identity.
* Python `hash` of a tuple is modelled injectively by the tuple of hashed
  components itself (the "hash key"): two objects get the same model hash
  iff the tuples fed to `hash` are equal.
* Fallible code returns `Except`/`Option`; a raised exception is an
  `Except.error` carrying the exception message.
-/

/-- The `ConstantValue` union from `info.py` (`str | bytes | bool | int |
float | complex | EllipsisType | None`).  `None` is represented by
`Option.none` at use sites; float and complex literals are omitted from the
model because no analysed declaration constructs them. -/
inductive ConstV where
  | str (s : String)
  | bytes (b : List Nat)
  | bool (b : Bool)
  | int (n : Int)
  | ellipsis
  deriving DecidableEq, Repr

/-- Python truthiness of an optional constant (`None`, `''`, `b''`, `False`,
`0` are falsy; `Ellipsis` is truthy). -/
def pyTruthyConst : Option ConstV → Bool
  | none => false
  | some (.str s) => s ≠ ""
  | some (.bytes b) => b ≠ []
  | some (.bool b) => b
  | some (.int n) => n ≠ 0
  | some .ellipsis => true

/-- Python `type(x).__name__` for an optional constant. -/
def pyTypeName : Option ConstV → String
  | none => "NoneType"
  | some (.str _) => "str"
  | some (.bytes _) => "bytes"
  | some (.bool _) => "bool"
  | some (.int _) => "int"
  | some .ellipsis => "ellipsis"

/-- Python `==` on optional constants.  `bool` is a subtype of `int` in
Python, so `True == 1` and `False == 0`; all other cross-type comparisons
are unequal. -/
def pyEqConst : Option ConstV → Option ConstV → Bool
  | none, none => true
  | some (.str a), some (.str b) => a == b
  | some (.bytes a), some (.bytes b) => a == b
  | some (.bool a), some (.bool b) => a == b
  | some (.int a), some (.int b) => a == b
  | some (.bool a), some (.int b) => (if a then (1 : Int) else 0) == b
  | some (.int a), some (.bool b) => a == (if b then (1 : Int) else 0)
  | some .ellipsis, some .ellipsis => true
  | _, _ => false

/-- Python `str.split('.')` on the character list of a string (`''` splits
to `['']`, consecutive dots give empty pieces). -/
def pySplitDotL : List Char → List (List Char)
  | [] => [[]]
  | c :: cs =>
      let r := pySplitDotL cs
      if c = '.' then [] :: r
      else
        match r with
        | [] => [[c]]
        | h :: t => (c :: h) :: t

/-- Python `str.split('.')`. -/
def pySplitDot (s : String) : List String :=
  (pySplitDotL s.data).map String.mk

/-- Python `'.'.join` on a list of strings. -/
def joinDot : List String → String
  | [] => ""
  | [x] => x
  | x :: xs => x ++ "." ++ joinDot xs

/-- `split_qual_name` from `_split_qual_name.py`: split a dotted name into
`(module_name, real_name)` at the last dot (`rsplit('.', 1)`). -/
def split_qual_name (qual_name : String) : String × String :=
  match (pySplitDot qual_name).reverse with
  | [] => ("", qual_name)
  | [_] => ("", qual_name)
  | last :: revInit => (joinDot revInit.reverse, last)

/-- `AliasInfo` from `info.py`: one decorator-style alias declaration. -/
structure AliasInfo where
  qual_name   : String
  alias_name  : Option ConstV
  arg_mapping : Option (List (String × ConstV))
  has_paren   : Bool
  path        : String
  row         : Nat
  column      : Nat
  decl_line   : String
  deriving DecidableEq, Repr

/-- `AliasInfo.__eq__`: equality on `(qual_name, alias_name, has_paren)`
only; location and remapping are excluded. -/
def aliasInfoEq (a b : AliasInfo) : Bool :=
  a.qual_name == b.qual_name &&
  pyEqConst a.alias_name b.alias_name &&
  a.has_paren == b.has_paren

/-- `AliasInfo.__hash__` hash key: `(qual_name, alias_name, has_paren)`. -/
def aliasHashKey (a : AliasInfo) : String × Option ConstV × Bool :=
  (a.qual_name, a.alias_name, a.has_paren)

/-- `FunctionInfo` from `info.py`. -/
structure FunctionInfo where
  qual_name   : String
  path        : String
  row         : Nat
  column      : Nat
  parameters  : List String
  aliases     : List AliasInfo
  decl_line   : String
  full_impl   : String
  deriving DecidableEq, Repr

/-- `ClassInfo` from `info.py`.  The frozen-dataclass workaround
`_is_valid_reflexsive : List[bool]` (a one-element mutable list) is
modelled as a plain `Bool` field updated functionally by the resolver. -/
structure ClassInfo where
  qual_name   : String
  path        : String
  row         : Nat
  column      : Nat
  metaclass   : String
  bases       : List String
  functions   : List FunctionInfo
  decl_line   : String
  full_impl   : String
  is_valid_reflexsive : Bool := false
  deriving DecidableEq, Repr

/-- `ClassInfo.__eq__`: compares `qual_name`, `path.resolve()`, `row`,
`column`, `decl_line` and `full_impl` — but not `metaclass` or `bases`. -/
def classInfoEq (a b : ClassInfo) : Bool :=
  a.qual_name == b.qual_name &&
  a.path == b.path &&
  a.row == b.row &&
  a.column == b.column &&
  a.decl_line == b.decl_line &&
  a.full_impl == b.full_impl

/-- `ClassInfo.__hash__` hash key: the tuple
`(qual_name, path.resolve(), row, column, metaclass, tuple(bases),
decl_line.strip(), full_impl.strip())` fed to `hash`. -/
def classHashKey (a : ClassInfo) :
    String × String × Nat × Nat × String × List String × String × String :=
  (a.qual_name, a.path, a.row, a.column, a.metaclass, a.bases,
   a.decl_line.trim, a.full_impl.trim)

/-- Python `set.add` keyed by `aliasInfoEq`: inserting an element equal to
an existing one leaves the set unchanged. -/
def pyAliasSetInsert (l : List AliasInfo) (a : AliasInfo) : List AliasInfo :=
  if l.any (fun x => aliasInfoEq x a) then l else l ++ [a]

/-- Python `<` on strings: lexicographic comparison by code point. -/
def pyStrLtL : List Char → List Char → Bool
  | [], [] => false
  | [], _ :: _ => true
  | _ :: _, [] => false
  | a :: as, b :: bs =>
      if a.val < b.val then true
      else if a.val = b.val then pyStrLtL as bs
      else false

/-- Python `<=` on strings. -/
def pyStrLe (a b : String) : Bool := a == b || pyStrLtL a.data b.data

/-- Stable insertion of `x` into a list sorted by `le` (placed before the
first element `y` with `le x y`). -/
def insertSorted (le : α → α → Bool) (x : α) : List α → List α
  | [] => [x]
  | y :: ys => if le x y then x :: y :: ys else y :: insertSorted le x ys

/-- Stable sort by `le`, modelling Python's stable `sorted`. -/
def sortBy (le : α → α → Bool) (l : List α) : List α :=
  l.foldr (insertSorted le) []

/-- One dequeue step of the breadth-first search in
`get_subclass_qual_names`: every class listing `current` among its bases
and not yet in `result` is appended to `result` and to the queue.
`classes.filter` plays the reverse `base → [class]` index built by the
code, preserving the iteration order of the class collection. -/
def subclassSearch (classes : List ClassInfo) :
    Nat → List String → List String → List String
  | 0, _, result => result
  | _ + 1, [], result => result
  | fuel + 1, current :: queue, result =>
      let subs := classes.filter (fun c => c.bases.contains current)
      let step := subs.foldl
        (fun (acc : List String × List String) c =>
          if acc.1.contains c.qual_name then acc
          else (acc.1 ++ [c.qual_name], acc.2 ++ [c.qual_name]))
        (result, [])
      subclassSearch classes fuel (queue ++ step.2) step.1

/-- `get_subclass_qual_names`: all qualified class names transitively
inheriting from the targets, BFS over the reverse base index, returned
sorted.  The fuel `targets.length + classes.length + 1` dominates the
number of dequeues the Python loop performs (each distinct qualified name
is enqueued at most once). -/
def get_subclass_qual_names (targets : List String) (classes : List ClassInfo) :
    List String :=
  let queue := targets.eraseDups
  sortBy pyStrLe (subclassSearch classes (targets.length + classes.length + 1) queue [])

/-- `get_valid_reflexsive_classes`: the legitimacy set, as the union of the
seed set, (unless excluded) the transitively reachable subclasses, and
(unless excluded) the classes whose metaclass is in the metaclass seed set.
The seed constants live in `statics.py`, which is not among the sources;
they are taken as the parameters `seedR` (`VALID_REFLEXSIVE_MODULE_PATHS`)
and `seedM` (`VALID_REFLEXSIVEMETA_MODULE_PATHS`). -/
def get_valid_reflexsive_classes (classes : List ClassInfo)
    (exclude_inherited : Bool := false) (exclude_metaclass : Bool := false)
    (seedR seedM : List String) : Finset String :=
  seedR.toFinset
    ∪ (if exclude_inherited then ∅ else
        (get_subclass_qual_names seedR classes).toFinset)
    ∪ (if exclude_metaclass then ∅ else
        ((classes.filter (fun c => seedM.contains c.metaclass)).map
          (fun c => c.qual_name)).toFinset)

/-- `prune_invalid_aliases`: drop every `AliasInfo` whose decorator's owning
class name is neither in the full legitimacy set nor matches the simple
(top-level) name of a legitimate class.  The in-place list mutation is
modelled functionally. -/
def prune_invalid_aliases (seedR seedM : List String)
    (classes : List ClassInfo) : List ClassInfo :=
  let valid_classes_for_alias :=
    get_valid_reflexsive_classes classes false false seedR seedM
  let valid_top_level_classes_for_alias :=
    valid_classes_for_alias.image (fun c => (split_qual_name c).2)
  classes.map (fun cls =>
    { cls with functions := cls.functions.map (fun func =>
        { func with aliases := func.aliases.filter (fun al =>
            let alias_class_name := (split_qual_name al.qual_name).1
            alias_class_name ∈ valid_classes_for_alias ∨
            alias_class_name ∈ valid_top_level_classes_for_alias) }) })

/-- `prune_aliasless_functions`: drop functions with an empty alias list. -/
def prune_aliasless_functions (classes : List ClassInfo) : List ClassInfo :=
  classes.map (fun cls =>
    { cls with functions := cls.functions.filter (fun f => f.aliases ≠ []) })

/-- `prune_aliasless_classes`: set the capability flag on classes in the
legitimacy set (computed with the given exclusion toggles) and keep a class
iff it still has functions or is itself legitimate. -/
def prune_aliasless_classes (classes : List ClassInfo)
    (exclude_inherited exclude_metaclass : Bool)
    (seedR seedM : List String) : List ClassInfo :=
  let valid_reflexsive_classes :=
    get_valid_reflexsive_classes classes exclude_inherited exclude_metaclass
      seedR seedM
  (classes.map (fun cls =>
    if cls.qual_name ∈ valid_reflexsive_classes then
      { cls with is_valid_reflexsive := true }
    else cls)).filter (fun cls =>
      cls.functions.length > 0 ∨ cls.qual_name ∈ valid_reflexsive_classes)

/-- `get_class_set_in_path` given the collected class set (`collect_classes`
reads the filesystem; its output is the `classes` argument here): prune
invalid aliases, then aliasless functions, then aliasless classes. -/
def get_class_set_in_path (classes : List ClassInfo)
    (exclude_inherited exclude_metaclass : Bool)
    (seedR seedM : List String) : List ClassInfo :=
  prune_aliasless_classes
    (prune_aliasless_functions (prune_invalid_aliases seedR seedM classes))
    exclude_inherited exclude_metaclass seedR seedM

/-- The class set computed on the validation path
(`get_validation_warnings`, lines 603-608): `get_class_set_in_path` with
`mode='both'`, `exclude_inherited=False`, `exclude_metaclass=False`. -/
def validationClassSet (classes : List ClassInfo) (seedR seedM : List String) :
    List ClassInfo :=
  get_class_set_in_path classes false false seedR seedM

lemma pyEqConst_refl (x : Option ConstV) : pyEqConst x x = true := by
  rcases x with _ | v
  · rfl
  · cases v <;> simp [pyEqConst]

/-- C4: the legitimacy-set computation is monotonic in its two inclusion
toggles — for any class set and seed sets, the set computed with inherited
subclasses included (`exclude_inherited = false`) contains the one with
them excluded, and likewise for the metaclass toggle, the other toggle
being held fixed. -/
theorem legitimacy_set_monotonic (classes : List ClassInfo)
    (seedR seedM : List String) (b : Bool) :
    get_valid_reflexsive_classes classes true b seedR seedM ⊆
      get_valid_reflexsive_classes classes false b seedR seedM ∧
    get_valid_reflexsive_classes classes b true seedR seedM ⊆
      get_valid_reflexsive_classes classes b false seedR seedM := by
  unfold get_valid_reflexsive_classes
  constructor
  · exact Finset.union_subset_union
      (Finset.union_subset_union (Finset.Subset.refl _) (by simp))
      (Finset.Subset.refl _)
  · exact Finset.union_subset_union (Finset.Subset.refl _) (by simp)

/-- C5: validation always uses the full legitimacy union.  The class set
consumed by `get_validation_warnings` is the pipeline with both exclusion
toggles off, and the legitimacy set computed with both toggles off (as on
the validation path, both in `get_validation_warnings` and inside
`prune_invalid_aliases`) is exactly the three-way union of the seed set,
the transitively reachable subclasses, and the metaclass-recognised
classes, with no exclusion applied. -/
theorem validation_uses_full_union (classes : List ClassInfo)
    (seedR seedM : List String) :
    validationClassSet classes seedR seedM =
      get_class_set_in_path classes false false seedR seedM ∧
    get_valid_reflexsive_classes classes false false seedR seedM =
      seedR.toFinset
        ∪ (get_subclass_qual_names seedR classes).toFinset
        ∪ ((classes.filter (fun c => seedM.contains c.metaclass)).map
            (fun c => c.qual_name)).toFinset := by
  constructor
  · rfl
  · simp [get_valid_reflexsive_classes]

/-- C6: two `AliasInfo` records are equal iff their decorator qualified
name, alias target name and call-syntax flag match (Python `==` on the
target name); location and parameter remapping are excluded, so two
declarations agreeing on the triple — wherever located and however
remapped — coalesce into a single element when inserted into a set. -/
theorem aliasInfo_equality_coalesces (a b : AliasInfo) :
    (aliasInfoEq a b = true ↔
      (a.qual_name = b.qual_name ∧ pyEqConst a.alias_name b.alias_name = true ∧
        a.has_paren = b.has_paren)) ∧
    (a.qual_name = b.qual_name → a.alias_name = b.alias_name →
      a.has_paren = b.has_paren →
      pyAliasSetInsert (pyAliasSetInsert [] a) b = [a]) := by
  constructor
  · simp [aliasInfoEq, and_assoc]
  · intro h1 h2 h3
    simp [pyAliasSetInsert, aliasInfoEq, h1, h2, h3, pyEqConst_refl]

/-- Concrete instantiation for C6: the same declaration recorded in two
different files with different remappings gives equal records that
coalesce. -/
def aliasDeclA : AliasInfo :=
  { qual_name := "reflexsive.Reflexsive.alias", alias_name := some (.str "open"),
    arg_mapping := some [("path", .str "p")], has_paren := true,
    path := "/proj/a.py", row := 6, column := 4,
    decl_line := "class A(Reflexsive):" }

/-- Same declaration triple as `aliasDeclA`, different file and remapping. -/
def aliasDeclB : AliasInfo :=
  { qual_name := "reflexsive.Reflexsive.alias", alias_name := some (.str "open"),
    arg_mapping := none, has_paren := true,
    path := "/proj/b.py", row := 11, column := 4,
    decl_line := "class B(Reflexsive):" }

theorem aliasInfo_equality_coalesces_witness :
    aliasInfoEq aliasDeclA aliasDeclB = true ∧
    pyAliasSetInsert (pyAliasSetInsert [] aliasDeclA) aliasDeclB =
      [aliasDeclA] :=
  ⟨((aliasInfo_equality_coalesces aliasDeclA aliasDeclB).1).mpr
      (by constructor <;> [rfl; constructor <;> rfl]),
   (aliasInfo_equality_coalesces aliasDeclA aliasDeclB).2 rfl rfl rfl⟩

/-- Failing input for C10: two `ClassInfo` records identical in every field
`__eq__` compares (`qual_name`, resolved path, row, column, `decl_line`,
`full_impl`) but with different metaclasses. -/
def classRecordTypeMeta : ClassInfo :=
  { qual_name := "m.A", path := "/proj/m.py", row := 1, column := 0,
    metaclass := "type", bases := [], functions := [],
    decl_line := "class A:", full_impl := "    pass" }

/-- Same record with an explicit metaclass; `__eq__` does not look at it,
`__hash__` does. -/
def classRecordCustomMeta : ClassInfo :=
  { classRecordTypeMeta with metaclass := "reflexsive.core.ReflexsiveMeta" }

/-- C10: refuted — `ClassInfo.__eq__` ignores `metaclass` and `bases` while
`ClassInfo.__hash__` hashes them, so two records comparing equal can feed
different tuples to `hash`.  At the failing input the two records are equal
under `classInfoEq` yet their hash keys differ, violating the hash/equality
consistency Python requires of set members. -/
theorem classInfo_eq_hash_inconsistent :
    classInfoEq classRecordTypeMeta classRecordCustomMeta = true ∧
    classHashKey classRecordTypeMeta ≠ classHashKey classRecordCustomMeta := by
  refine ⟨rfl, ?_⟩
  intro h
  simp [classHashKey, classRecordTypeMeta, classRecordCustomMeta] at h

/-- The fragment of the Python expression AST that the scanner's name
resolution inspects: `ast.Name`, `ast.Attribute`, `ast.Call` (only the
callee matters for name resolution) and any other node kind. -/
inductive PyExpr where
  | name (id : String)
  | attr (value : PyExpr) (attrName : String)
  | callE (func : PyExpr)
  | otherE
  deriving DecidableEq, Repr

/-- The `while isinstance(expr, ast.Attribute)` loops of `resolve_name` and
`get_decorator_qual_name`: peel attribute accesses outside-in, returning
the attribute chain (root-first) and the root expression. -/
def attrChain : PyExpr → List String × PyExpr
  | .attr v a => let r := attrChain v; (r.1 ++ [a], r.2)
  | e => ([], e)

/-- `resolve_name` from `helpers.py`: dotted name of a Name/Attribute/Call
expression; `'<unknown>'` for any other node.  Total — never raises. -/
def resolve_name : PyExpr → String
  | .name id => id
  | .attr v a =>
      let c := attrChain (.attr v a)
      match c.2 with
      | .name id => joinDot (id :: c.1)
      | _ => joinDot c.1
  | .callE f => resolve_name f
  | .otherE => "<unknown>"

/-- `get_decorator_name`: just the final attribute/function simple name. -/
def get_decorator_name : PyExpr → String
  | .name id => id
  | .attr _ a => a
  | .callE f => get_decorator_name f
  | .otherE => "<unknown>"

/-- Python `dict` lookup on an association list (keys are unique: the
scanner's dicts are built with key overwrite, modelled by `pyDictSet`). -/
def pyDictGet (d : List (String × String)) (k : String) : Option String :=
  d.lookup k

/-- Python `dict` assignment: overwrite the first binding of the key in
place, else append. -/
def pyDictSet (d : List (String × String)) (k v : String) :
    List (String × String) :=
  if d.any (fun kv => kv.1 == k) then
    d.map (fun kv => if kv.1 == k then (k, v) else kv)
  else d ++ [(k, v)]

/-- `get_decorator_qual_name`: resolve a decorator expression to a
qualified name through the import map (the root identifier is substituted
by its import binding when one exists). -/
def get_decorator_qual_name (e : PyExpr) (imports : List (String × String)) :
    String :=
  match e with
  | .name id => (pyDictGet imports id).getD id
  | .attr v a =>
      let c := attrChain (.attr v a)
      match c.2 with
      | .name root => joinDot (((pyDictGet imports root).getD root) :: c.1)
      | _ => joinDot ("<unknown>" :: c.1)
  | .callE f => get_decorator_qual_name f imports
  | .otherE => "<unknown>"

/-- Base-expression resolution inside `collect_classes` (lines 287-300):
resolve the expression lexically, then qualify its first component through
the import map, else map the whole name through the local class table, else
keep the lexical name verbatim.  `none` models the `continue` taken when
the resolved name is falsy. -/
def resolveBaseName (imports local_class_names : List (String × String))
    (base : PyExpr) : Option String :=
  let name := resolve_name base
  if name = "" then none
  else
    match pySplitDot name with
    | [] => some name
    | p0 :: rest =>
        match pyDictGet imports p0 with
        | some q => some (joinDot (q :: rest))
        | none =>
            match pyDictGet local_class_names name with
            | some q => some q
            | none => some name

/-- One keyword of the metaclass loop in `collect_classes` (lines 303-313):
a `metaclass=` keyword overwrites the current value with its resolved name
(when truthy), then substitutes it through the import map when bound
there. -/
def metaclassStep (imports : List (String × String)) (metaclass : String)
    (kw : Option String × PyExpr) : String :=
  if kw.1 ≠ some "metaclass" then metaclass
  else
    let resolved := resolve_name kw.2
    let m1 := if resolved ≠ "" then resolved else metaclass
    if m1 ≠ "" then
      match pyDictGet imports m1 with
      | some q => q
      | none => m1
    else m1

/-- Metaclass resolution for one class node: fold of `metaclassStep` over
the keyword list, starting from the implicit `'type'`. -/
def resolveMetaclass (imports : List (String × String))
    (keywords : List (Option String × PyExpr)) : String :=
  keywords.foldl (metaclassStep imports) "type"

/-- `ast.ImportFrom` handling in `collect_classes` (lines 262-273): for a
`from <module> import n1 as a1, ...` statement of relative level `level`
in the file with dotted module path `module_name`, the produced import
bindings map each `asname or name` to the resolved full name.  `module` is
`node.module or ''`. -/
def importFromBindings (module_name module : String) (level : Nat)
    (names : List (String × Option String)) : List (String × String) :=
  let base_module :=
    if level = 0 then module
    else
      let parts := pySplitDot module_name
      joinDot (parts.take (parts.length - level) ++
        (if module ≠ "" then [module] else []))
  names.map (fun nm =>
    (nm.2.getD nm.1,
     if base_module ≠ "" then base_module ++ "." ++ nm.1 else nm.1))

lemma joinDot_append_last (xs : List String) (n : String) :
    joinDot (xs ++ [n]) =
      if xs = [] then n else joinDot xs ++ "." ++ n := by
  induction xs with
  | nil => simp [joinDot]
  | cons x xs ih =>
      cases xs with
      | nil => simp [joinDot]
      | cons y ys =>
          simp only [List.cons_append] at ih ⊢
          have h1 : joinDot (x :: y :: (ys ++ [n])) =
              x ++ "." ++ joinDot (y :: (ys ++ [n])) := rfl
          have h2 : joinDot (x :: y :: ys) = x ++ "." ++ joinDot (y :: ys) := rfl
          rw [h1, ih, if_neg (by simp), if_neg (by simp), h2]
          simp [String.append_assoc]

lemma joinDot_ne_empty (xs : List String) (hne : xs ≠ [])
    (h : ∀ p ∈ xs, p ≠ "") : joinDot xs ≠ "" := by
  cases xs with
  | nil => exact absurd rfl hne
  | cons x xs =>
      cases xs with
      | nil => exact h x (by simp)
      | cons y ys =>
          show x ++ "." ++ joinDot (y :: ys) ≠ ""
          intro hc
          have hlen : (x ++ "." ++ joinDot (y :: ys)).length = ("" : String).length :=
            congrArg String.length hc
          simp only [String.length_append] at hlen
          have h1 : ("." : String).length = 1 := rfl
          have h0 : ("" : String).length = 0 := rfl
          omega

/-- A stored name counts as module-path qualified when `split_qual_name`
finds a non-empty module component before the final symbol. -/
def isDottedQualName (s : String) : Bool := (split_qual_name s).1 ≠ ""

/-- C7: a relative from-import of level `L ≥ 1` binds each imported name to
the dot-joined concatenation of the file's module-path components with the
last `L` dropped, the statement's module suffix when non-empty, and the
imported name.  The hypothesis that the module-path components are
non-empty holds for every path produced by `get_module_name` (a dotted
join of path segments). -/
theorem relative_import_binding (module_name module : String) (level : Nat)
    (names : List (String × Option String))
    (hlevel : 1 ≤ level)
    (hparts : ∀ p ∈ pySplitDot module_name, p ≠ "") :
    importFromBindings module_name module level names =
      names.map (fun nm =>
        (nm.2.getD nm.1,
         joinDot ((pySplitDot module_name).take
             ((pySplitDot module_name).length - level)
           ++ (if module ≠ "" then [module] else []) ++ [nm.1]))) := by
  unfold importFromBindings
  rw [if_neg (by omega)]
  apply List.map_congr_left
  intro nm _
  set pp := (pySplitDot module_name).take ((pySplitDot module_name).length - level)
    with hpp
  set slist := (if module ≠ "" then [module] else []) with hslist
  have hmem : ∀ p ∈ pp ++ slist, p ≠ "" := by
    intro p hp
    rcases List.mem_append.mp hp with h1 | h2
    · exact hparts p (List.take_subset _ _ h1)
    · rw [hslist] at h2
      by_cases hm : module = ""
      · simp [hm] at h2
      · simp [hm] at h2
        rw [h2]; exact hm
  by_cases hx : pp ++ slist = []
  · rw [hx, List.nil_append]
    have hbase : joinDot (pp ++ slist) = "" := by rw [hx]; rfl
    rw [if_neg (by rw [hbase]; simp)]
    rfl
  · rw [joinDot_append_last, if_neg hx,
      if_pos (joinDot_ne_empty _ hx hmem)]

/-- Closed instance of C7: `from .x import y, w as z` in module
`pkg.sub.mod` binds `y ↦ pkg.sub.x.y` and `z ↦ pkg.sub.x.w`. -/
theorem relative_import_binding_witness :
    importFromBindings "pkg.sub.mod" "x" 1 [("y", none), ("w", some "z")] =
      [("y", "pkg.sub.x.y"), ("z", "pkg.sub.x.w")] := by
  rw [relative_import_binding "pkg.sub.mod" "x" 1 [("y", none), ("w", some "z")]
    (by decide) (by decide)]
  decide

/-- C2, refuted at a concrete input: a base expression whose root is bound
neither in the import map nor in the local class table is stored verbatim
as a bare local name — not as the `'<unknown>'` sentinel and not
module-path qualified; likewise a bare `@alias` decorator records the
unqualified name `'alias'`. -/
theorem bare_name_stored_verbatim :
    resolveBaseName [] [] (.name "Base") = some "Base" ∧
    isDottedQualName "Base" = false ∧ "Base" ≠ "<unknown>" ∧
    get_decorator_qual_name (.name "alias") [] = "alias" ∧
    isDottedQualName "alias" = false := by
  decide

lemma metaclassFold_shape (imports : List (String × String))
    (allkws : List (Option String × PyExpr)) :
    ∀ kws : List (Option String × PyExpr), (∀ kw ∈ kws, kw ∈ allkws) →
    ∀ m : String,
      (m = "type" ∨ (∃ k q, pyDictGet imports k = some q ∧ m = q) ∨
        (∃ kw ∈ allkws, kw.1 = some "metaclass" ∧ m = resolve_name kw.2)) →
      (kws.foldl (metaclassStep imports) m = "type" ∨
        (∃ k q, pyDictGet imports k = some q ∧
          kws.foldl (metaclassStep imports) m = q) ∨
        (∃ kw ∈ allkws, kw.1 = some "metaclass" ∧
          kws.foldl (metaclassStep imports) m = resolve_name kw.2)) := by
  intro kws
  induction kws with
  | nil => intro _ m hm; simpa using hm
  | cons kw rest ih =>
      intro hsub m hm
      rw [List.foldl_cons]
      apply ih (fun k hk => hsub k (by simp [hk]))
      by_cases harg : kw.1 = some "metaclass"
      · have hne : ¬ (kw.1 ≠ some "metaclass") := by simpa using harg
        simp only [metaclassStep, if_neg hne]
        by_cases hm1 : (if resolve_name kw.2 ≠ "" then resolve_name kw.2 else m) ≠ ""
        · rw [if_pos hm1]
          rcases hlook : pyDictGet imports
              (if resolve_name kw.2 ≠ "" then resolve_name kw.2 else m) with _ | q
          · by_cases hres : resolve_name kw.2 ≠ ""
            · rw [if_pos hres]
              exact Or.inr (Or.inr ⟨kw, hsub kw (by simp), harg, rfl⟩)
            · rw [if_neg hres]; exact hm
          · exact Or.inr (Or.inl ⟨_, q, hlook, rfl⟩)
        · rw [if_neg hm1]
          by_cases hres : resolve_name kw.2 ≠ ""
          · rw [if_pos hres]
            exact Or.inr (Or.inr ⟨kw, hsub kw (by simp), harg, rfl⟩)
          · rw [if_neg hres]; exact hm
      · simp only [metaclassStep, if_pos harg]
        exact hm

/-- C2, amended characterisation: stored qualified names never come from a
failed-resolution crash — resolution is total — and every stored name is
either (a) qualified through the import map (its root component replaced
by the import binding), (b) taken from the local class table, (c) the
verbatim lexical name (possibly a bare local name), or rooted at the
`'<unknown>'` sentinel for unsupported expression shapes; a resolved
metaclass is additionally either the implicit `'type'` or an import-map
value. -/
theorem name_resolution_characterisation :
    (∀ imports locals b r, resolveBaseName imports locals b = some r →
        (∃ p0 rest q, pyDictGet imports p0 = some q ∧
          r = joinDot (q :: rest)) ∨
        pyDictGet locals (resolve_name b) = some r ∨
        r = resolve_name b) ∧
    (∀ imports e,
        get_decorator_qual_name e imports = "<unknown>" ∨
        (∃ parts, get_decorator_qual_name e imports =
            joinDot ("<unknown>" :: parts)) ∨
        (∃ id parts, get_decorator_qual_name e imports =
            joinDot (((pyDictGet imports id).getD id) :: parts))) ∧
    (∀ imports keywords,
        resolveMetaclass imports keywords = "type" ∨
        (∃ k q, pyDictGet imports k = some q ∧
          resolveMetaclass imports keywords = q) ∨
        (∃ kw ∈ keywords, kw.1 = some "metaclass" ∧
          resolveMetaclass imports keywords = resolve_name kw.2)) := by
  refine ⟨?_, ?_, ?_⟩
  · intro imports locals b r h
    simp only [resolveBaseName] at h
    by_cases hname : resolve_name b = ""
    · rw [if_pos hname] at h; exact absurd h (by simp)
    · rw [if_neg hname] at h
      rcases hsplit : pySplitDot (resolve_name b) with _ | ⟨p0, rest⟩ <;>
        rw [hsplit] at h <;> dsimp only at h
      · exact Or.inr (Or.inr (Option.some.inj h).symm)
      · rcases hlook : pyDictGet imports p0 with _ | q <;>
          rw [hlook] at h <;> dsimp only at h
        · rcases hloc : pyDictGet locals (resolve_name b) with _ | q2 <;>
            rw [hloc] at h <;> dsimp only at h
          · exact Or.inr (Or.inr (Option.some.inj h).symm)
          · exact Or.inr (Or.inl (congrArg some (Option.some.inj h)))
        · exact Or.inl ⟨p0, rest, q, hlook, (Option.some.inj h).symm⟩
  · intro imports e
    induction e with
    | name id =>
        exact Or.inr (Or.inr ⟨id, [], rfl⟩)
    | attr v a ih =>
        rcases hC : attrChain (.attr v a) with ⟨parts, root⟩
        have hdef : get_decorator_qual_name (.attr v a) imports =
            match (attrChain (.attr v a)).2 with
            | .name rootId =>
                joinDot (((pyDictGet imports rootId).getD rootId) :: (attrChain (.attr v a)).1)
            | _ => joinDot ("<unknown>" :: (attrChain (.attr v a)).1) := rfl
        rw [hdef, hC]
        cases root with
        | name rootId => exact Or.inr (Or.inr ⟨rootId, parts, rfl⟩)
        | attr _ _ => exact Or.inr (Or.inl ⟨parts, rfl⟩)
        | callE _ => exact Or.inr (Or.inl ⟨parts, rfl⟩)
        | otherE => exact Or.inr (Or.inl ⟨parts, rfl⟩)
    | callE f ih =>
        exact ih
    | otherE =>
        exact Or.inl rfl
  · intro imports keywords
    exact metaclassFold_shape imports keywords keywords (fun _ h => h) "type"
      (Or.inl rfl)

/-- Closed instance of the C2 characterisation: an imported base resolves
through the import map, and the implicit metaclass is `'type'`. -/
theorem name_resolution_characterisation_witness :
    ((∃ p0 rest q, pyDictGet [("Base", "reflexsive.Reflexsive")] p0 = some q ∧
        "reflexsive.Reflexsive" = joinDot (q :: rest)) ∨
      pyDictGet [] (resolve_name (.name "Base")) = some "reflexsive.Reflexsive" ∨
      "reflexsive.Reflexsive" = resolve_name (.name "Base")) ∧
    (resolveMetaclass [] [] = "type" ∨
      (∃ k q, pyDictGet [] k = some q ∧ resolveMetaclass [] [] = q) ∨
      (∃ kw ∈ ([] : List (Option String × PyExpr)), kw.1 = some "metaclass" ∧
        resolveMetaclass [] [] = resolve_name kw.2)) :=
  ⟨name_resolution_characterisation.1 [("Base", "reflexsive.Reflexsive")] []
      (.name "Base") "reflexsive.Reflexsive" (by decide),
   name_resolution_characterisation.2.2 [] []⟩

/-- `WarningLevel` from `helpers.py` (`auto()` numbering from 1). -/
inductive WarningLevel where
  | INFO
  | WARNING
  | ERROR
  deriving DecidableEq, Repr

/-- `Enum.value` of `WarningLevel`. -/
def WarningLevel.value : WarningLevel → Nat
  | .INFO => 1
  | .WARNING => 2
  | .ERROR => 3

/-- The exception types attached to diagnostics by the validator. -/
inductive ExcType where
  | ReflexsiveNameConflictError
  | ReflexsiveArgumentError
  | TypeError
  deriving DecidableEq, Repr

/-- The closed set of record kinds behind the `Info` abstract base class. -/
inductive Info where
  | cls (c : ClassInfo)
  | func (f : FunctionInfo)
  | aliasInfo (a : AliasInfo)
  deriving DecidableEq, Repr

/-- Python `str()` of an optional constant (`str(None) = 'None'`, bytes
shown through their `repr` prefix, matching `b'...'` up to quoting). -/
def pyStrConst : Option ConstV → String
  | none => "None"
  | some (.str s) => s
  | some (.bool b) => if b then "True" else "False"
  | some (.int n) => toString n
  | some (.bytes b) => "b" ++ String.mk (b.map Char.ofNat)
  | some .ellipsis => "Ellipsis"

/-- `click.style(s, fg='cyan', bold=True)`. -/
def styleCyanBold (s : String) : String := "\x1b[36m\x1b[1m" ++ s ++ "\x1b[0m"

/-- `click.style(s, fg='blue', bold=True)`. -/
def styleBlueBold (s : String) : String := "\x1b[34m\x1b[1m" ++ s ++ "\x1b[0m"

/-- `click.style(s, fg='red', bold=True)`. -/
def styleRedBold (s : String) : String := "\x1b[31m\x1b[1m" ++ s ++ "\x1b[0m"

/-- `click.style(s, fg='black', underline=True)`. -/
def styleBlackUnderline (s : String) : String :=
  "\x1b[30m\x1b[4m" ++ s ++ "\x1b[0m"

/-- `Info.qual_name`. -/
def Info.qual_name : Info → String
  | .cls c => c.qual_name
  | .func f => f.qual_name
  | .aliasInfo a => a.qual_name

/-- `Info.path` (as resolved path string). -/
def Info.path : Info → String
  | .cls c => c.path
  | .func f => f.path
  | .aliasInfo a => a.path

/-- `Info.row`. -/
def Info.row : Info → Nat
  | .cls c => c.row
  | .func f => f.row
  | .aliasInfo a => a.row

/-- `Info.column`. -/
def Info.column : Info → Nat
  | .cls c => c.column
  | .func f => f.column
  | .aliasInfo a => a.column

/-- `Info.name` property: the simple name after the last dot. -/
def Info.name (i : Info) : String := (split_qual_name i.qual_name).2

/-- `Info.location` property (`:{column}` omitted when column is falsy). -/
def Info.location (i : Info) : String :=
  i.path ++ ":" ++ toString i.row ++
    (if i.column ≠ 0 then ":" ++ toString i.column else "")

/-- `Info.colored_location` property. -/
def Info.colored_location (i : Info) : String :=
  styleBlackUnderline i.location

/-- `ClassInfo.colored_name`. -/
def classColoredName (c : ClassInfo) : String :=
  styleCyanBold (split_qual_name c.qual_name).2

/-- `FunctionInfo.colored_name`. -/
def funcColoredName (f : FunctionInfo) : String :=
  styleBlueBold (split_qual_name f.qual_name).2

/-- `AliasInfo.colored_name` (styles `str(alias_name)`). -/
def aliasColoredName (a : AliasInfo) : String :=
  styleRedBold (pyStrConst a.alias_name)

/-- `Info.colored_name` property. -/
def Info.colored_name : Info → String
  | .cls c => classColoredName c
  | .func f => funcColoredName f
  | .aliasInfo a => aliasColoredName a

/-- `Warning` from `helpers.py`: a diagnostic with lazily rendered
message. -/
structure Warning where
  info_objs : List Info
  level     : WarningLevel
  exec_typ  : Option ExcType
  _message  : String
  deriving DecidableEq, Repr

/-- Python `', '.join` and friends. -/
def pyJoin (sep : String) : List String → String
  | [] => ""
  | [x] => x
  | x :: xs => x ++ sep ++ pyJoin sep xs

/-- The `f'{cls.colored_name}.{func.colored_name}'` label accumulated per
alias in `get_validation_warnings`. -/
def funcLabel (cls : ClassInfo) (func : FunctionInfo) : String :=
  classColoredName cls ++ "." ++ funcColoredName func

/-- Rule 1 template (class with no functions). -/
def msgRule1 : String :=
  "$(colored_location): Class '$(colored_name)' has no functions defined."

/-- Rule 2 template (alias decorator not called). -/
def msgRule2 : String :=
  "$(2::colored_location): Function '$(1::colored_name).$(2::colored_name)' has an alias decorator that is not called."

/-- Rule 3 message (alias name not a string), interpolating the actual
Python type name of the alias name. -/
def msgRule3 (a : AliasInfo) : String :=
  "$(3::colored_location): Alias '$(3::colored_name)' of '$(1::colored_name).$(2::colored_name)' must have a str name, not '"
    ++ pyTypeName a.alias_name ++ "'."

/-- Rule 4 message (duplicate alias name on one function). -/
def msgRule4 (a : AliasInfo) : String :=
  "$(2::colored_location): Function '$(1::colored_name).$(2::colored_name)' has duplicate alias name '"
    ++ aliasColoredName a ++ "'."

/-- Rule 5 message (non-string remapping value). -/
def msgRule5 (remapping : ConstV) : String :=
  "$(colored_location): Must provide '$(colored_name)' a string remapping value, not '"
    ++ pyTypeName (some remapping) ++ "'."

/-- Rule 6 message (reserved remapping target). -/
def msgRule6 (remapping : String) : String :=
  "$(colored_location): Alias '$(colored_name)' cannot use reserved name '"
    ++ remapping ++ "'."

/-- Rule 7 message (remapping a non-existent parameter). -/
def msgRule7 (param : String) : String :=
  "$(2::colored_location): Alias '$(2::colored_name)' remaps non-existent parameter '"
    ++ param ++ "' in function '$(1::colored_name)'."

/-- Rule 8 message (alias name reused across functions of one class),
interpolating the comma-joined distinct function labels. -/
def msgRule8 (funcs : List String) : String :=
  "$(1::colored_location): Alias name $(2::colored_name) is used by multiple functions in $(1::colored_name): "
    ++ pyJoin ", " funcs ++ "."

/-- The `add_warning` closure of `get_validation_warnings`: drop the
diagnostic when below the minimum level (returning `False`), escalate
non-INFO levels to ERROR under strict mode, append, and report whether the
validation run must stop (`level == ERROR and exit`). -/
def add_warning (minimum_warning_level : WarningLevel) (strict exitFlag : Bool)
    (warnings : List Warning) (info_objs : List Info) (level : WarningLevel)
    (exec_typ : Option ExcType) (message : String) : List Warning × Bool :=
  if level.value < minimum_warning_level.value then (warnings, false)
  else
    let level := if strict && level ≠ WarningLevel.INFO then
        WarningLevel.ERROR else level
    (warnings ++ [⟨info_objs, level, exec_typ, message⟩],
     level == WarningLevel.ERROR && exitFlag)

/-- Lift an `add_warning` result into the short-circuiting validation
computation: a `True` return aborts the whole run with the warnings
accumulated so far (the Python `return warnings`). -/
def guardStop (p : List Warning × Bool) : Except (List Warning) (List Warning) :=
  if p.2 then .error p.1 else .ok p.1

/-- `isinstance(x, str)` on an optional constant. -/
def isStrConst : Option ConstV → Bool
  | some (.str _) => true
  | _ => false

/-- `alias_map.setdefault(alias, []).append(label)`: append the label to
the entry keyed (by `AliasInfo.__eq__`) by this alias, inserting the alias
as the key kept for the entry when absent (Python dicts keep the
first-inserted key object). -/
def aliasMapAppend (m : List (AliasInfo × List String)) (a : AliasInfo)
    (label : String) : List (AliasInfo × List String) :=
  if m.any (fun kv => aliasInfoEq kv.1 a) then
    m.map (fun kv => if aliasInfoEq kv.1 a then (kv.1, kv.2 ++ [label]) else kv)
  else m ++ [(a, [label])]

/-- One `(param, remapping)` entry of the `alias.arg_mapping` loop: a
non-string remapping is rule 5; otherwise a reserved target name is rule 6
and a non-existent source parameter is rule 7 (both may fire). -/
def checkRemapEntry (minL : WarningLevel) (strict exitFlag : Bool)
    (cls : ClassInfo) (func : FunctionInfo) (a : AliasInfo)
    (warnings : List Warning) (entry : String × ConstV) :
    Except (List Warning) (List Warning) := do
  match entry.2 with
  | .str s => do
      let w ← if s ∈ ["args", "kwargs", "self", "cls"] then
          guardStop (add_warning minL strict exitFlag warnings
            [.aliasInfo a] .ERROR (some .ReflexsiveArgumentError) (msgRule6 s))
        else .ok warnings
      if entry.1 ∉ func.parameters then
        guardStop (add_warning minL strict exitFlag w
          [.cls cls, .func func] .ERROR (some .ReflexsiveArgumentError)
          (msgRule7 entry.1))
      else .ok w
  | v =>
      guardStop (add_warning minL strict exitFlag warnings
        [.aliasInfo a] .ERROR (some .TypeError) (msgRule5 v))

/-- The `for param, remapping in alias.arg_mapping.items()` loop. -/
def checkRemaps (minL : WarningLevel) (strict exitFlag : Bool)
    (cls : ClassInfo) (func : FunctionInfo) (a : AliasInfo)
    (warnings : List Warning) :
    List (String × ConstV) → Except (List Warning) (List Warning)
  | [] => .ok warnings
  | e :: rest => do
      let w ← checkRemapEntry minL strict exitFlag cls func a warnings e
      checkRemaps minL strict exitFlag cls func a w rest

/-- The body of the `for alias in func.aliases` loop: rules 2, 3, 4, the
remapping checks (rules 5-7), then the rule-8 bookkeeping (`alias_map` and
`seen_alias_names` only grow for truthy alias names). -/
def checkAlias (minL : WarningLevel) (strict exitFlag : Bool)
    (cls : ClassInfo) (func : FunctionInfo) (warnings : List Warning)
    (aliasMap : List (AliasInfo × List String)) (seen : List (Option ConstV))
    (a : AliasInfo) :
    Except (List Warning)
      (List Warning × List (AliasInfo × List String) × List (Option ConstV)) := do
  let w ← if !a.has_paren then
      guardStop (add_warning minL strict exitFlag warnings
        [.cls cls, .func func] .ERROR (some .ReflexsiveNameConflictError)
        msgRule2)
    else .ok warnings
  let w ← if !isStrConst a.alias_name then
      guardStop (add_warning minL strict exitFlag w
        [.cls cls, .func func, .aliasInfo a] .ERROR
        (some .ReflexsiveNameConflictError) (msgRule3 a))
    else .ok w
  let w ← if seen.any (fun s => pyEqConst a.alias_name s) then
      guardStop (add_warning minL strict exitFlag w
        [.cls cls, .func func] .ERROR (some .ReflexsiveNameConflictError)
        (msgRule4 a))
    else .ok w
  let w ← match a.arg_mapping with
    | some entries =>
        if entries ≠ [] then
          checkRemaps minL strict exitFlag cls func a w entries
        else .ok w
    | none => .ok w
  if pyTruthyConst a.alias_name then
    .ok (w, aliasMapAppend aliasMap a (funcLabel cls func),
      seen ++ [a.alias_name])
  else
    .ok (w, aliasMap, seen)

/-- The `for alias in func.aliases` loop. -/
def checkAliases (minL : WarningLevel) (strict exitFlag : Bool)
    (cls : ClassInfo) (func : FunctionInfo) (warnings : List Warning)
    (aliasMap : List (AliasInfo × List String)) (seen : List (Option ConstV)) :
    List AliasInfo →
    Except (List Warning) (List Warning × List (AliasInfo × List String))
  | [] => .ok (warnings, aliasMap)
  | a :: rest => do
      let st ← checkAlias minL strict exitFlag cls func warnings aliasMap seen a
      checkAliases minL strict exitFlag cls func st.1 st.2.1 st.2.2 rest

/-- The `for func in cls.functions` loop (`seen_alias_names` resets per
function, `alias_map` accumulates across the class). -/
def checkFuncs (minL : WarningLevel) (strict exitFlag : Bool)
    (cls : ClassInfo) (warnings : List Warning)
    (aliasMap : List (AliasInfo × List String)) :
    List FunctionInfo →
    Except (List Warning) (List Warning × List (AliasInfo × List String))
  | [] => .ok (warnings, aliasMap)
  | f :: rest => do
      let st ← checkAliases minL strict exitFlag cls f warnings aliasMap []
        f.aliases
      checkFuncs minL strict exitFlag cls st.1 st.2 rest

/-- Python `set(xs)` over strings, iterated in first-occurrence order (the
modelled iteration order for CPython string sets). -/
def pySetListAux (seen : List String) : List String → List String
  | [] => []
  | x :: xs =>
      if x ∈ seen then pySetListAux seen xs
      else x :: pySetListAux (seen ++ [x]) xs

/-- `set(xs)` as a first-occurrence-ordered list. -/
def pySetList (l : List String) : List String := pySetListAux [] l

/-- The rule-8 loop over the accumulated `alias_map`: for each alias key
whose distinct owning-function labels number more than one, emit a
class-level ERROR listing them. -/
def checkDuplicateAliasNames (minL : WarningLevel) (strict exitFlag : Bool)
    (cls : ClassInfo) (warnings : List Warning) :
    List (AliasInfo × List String) → Except (List Warning) (List Warning)
  | [] => .ok warnings
  | (a, funcs_list) :: rest =>
      let funcs := pySetList funcs_list
      if funcs.length = 1 then
        checkDuplicateAliasNames minL strict exitFlag cls warnings rest
      else if funcs.length > 1 then do
        let w ← guardStop (add_warning minL strict exitFlag warnings
          [.cls cls, .aliasInfo a] .ERROR (some .ReflexsiveNameConflictError)
          (msgRule8 funcs))
        checkDuplicateAliasNames minL strict exitFlag cls w rest
      else
        checkDuplicateAliasNames minL strict exitFlag cls warnings rest

/-- The per-class body of `get_validation_warnings`: rule 1 for a class
with no retained functions, then the per-function checks, then rule 8. -/
def checkClass (minL : WarningLevel) (strict exitFlag : Bool)
    (warnings : List Warning) (cls : ClassInfo) :
    Except (List Warning) (List Warning) := do
  let w ← if cls.functions.isEmpty then
      guardStop (add_warning minL strict exitFlag warnings
        [.cls cls] .INFO none msgRule1)
    else .ok warnings
  let st ← checkFuncs minL strict exitFlag cls w [] cls.functions
  checkDuplicateAliasNames minL strict exitFlag cls st.1 st.2

/-- The `for cls in sorted(classes, ...)` loop. -/
def checkClasses (minL : WarningLevel) (strict exitFlag : Bool)
    (warnings : List Warning) :
    List ClassInfo → Except (List Warning) (List Warning)
  | [] => .ok warnings
  | c :: rest => do
      let w ← checkClass minL strict exitFlag warnings c
      checkClasses minL strict exitFlag w rest

/-- Class iteration order: `sorted(classes, key=lambda cls: (cls.path,
cls.qual_name))`. -/
def classSortLe (a b : ClassInfo) : Bool :=
  pyStrLtL a.path.data b.path.data ||
    (a.path == b.path && pyStrLe a.qual_name b.qual_name)

/-- Final ordering: `sorted(warnings, key=lambda w: w.level.value,
reverse=True)` (stable descending by severity). -/
def warningSortDescLe (a b : Warning) : Bool := b.level.value ≤ a.level.value

/-- The rule engine of `get_validation_warnings` on an already scanned and
pruned class list: iterate classes in sorted order with the opt-in
short-circuit; when a stop triggers, the warnings accumulated so far are
returned unsorted (the early `return warnings`), otherwise the final list
is sorted by descending severity. -/
def validate_classes (classes : List ClassInfo) (exitFlag strict : Bool)
    (minimum_warning_level : WarningLevel) : List Warning :=
  match checkClasses minimum_warning_level strict exitFlag []
      (sortBy classSortLe classes) with
  | .error w => w
  | .ok w => sortBy warningSortDescLe w

/-- `get_validation_warnings` given the collected (pre-pruning) class set:
scan results are pruned with both exclusion toggles off, then validated. -/
def get_validation_warnings (classes : List ClassInfo)
    (seedR seedM : List String) (exitFlag strict : Bool)
    (minimum_warning_level : WarningLevel) : List Warning :=
  validate_classes (validationClassSet classes seedR seedM) exitFlag strict
    minimum_warning_level

/-- A bare `@Base.alias` decoration as recorded by the scanner: no call
syntax, hence no alias name and no remapping. -/
def bareAliasRecord : AliasInfo :=
  { qual_name := "reflexsive.Reflexsive.alias", alias_name := none,
    arg_mapping := none, has_paren := false, path := "/proj/c.py", row := 10,
    column := 4, decl_line := "class C(Base):" }

/-- The method carrying `bareAliasRecord`. -/
def bareAliasFunc : FunctionInfo :=
  { qual_name := "c.C.test", path := "/proj/c.py", row := 11, column := 4,
    parameters := ["self"], aliases := [bareAliasRecord],
    decl_line := "    def test(self) -> None:", full_impl := "        pass" }

/-- The alias-capable class containing exactly that one method. -/
def bareAliasClass : ClassInfo :=
  { qual_name := "c.C", path := "/proj/c.py", row := 5, column := 0,
    metaclass := "type", bases := ["reflexsive.Reflexsive"],
    functions := [bareAliasFunc], decl_line := "class C(Base):",
    full_impl := "    ...", is_valid_reflexsive := true }

/-- C1, refuted at a concrete input: one alias-capable class whose single
method carries one bare (uncalled) alias decorator yields two diagnostics,
not one — rule 2 (decorator not called) and rule 3 (the absent alias name
is `None`, not a `str`) both fire. -/
theorem bare_alias_not_single_error :
    (validate_classes [bareAliasClass] false false .WARNING).length = 2 := by
  decide

/-- C1, amended: for every scanned class whose single retained method
carries exactly one bare alias decorator (which the scanner records with
`alias_name = None` and `arg_mapping = None`), validation at the default
threshold returns exactly two ERROR diagnostics — rule 2 (decorator not
called) followed by rule 3 (alias name must be a `str`, not `NoneType`) —
and nothing else. -/
theorem bare_alias_two_errors (c : ClassInfo) (f : FunctionInfo)
    (a : AliasInfo) (hf : c.functions = [f]) (ha : f.aliases = [a])
    (hp : a.has_paren = false) (hn : a.alias_name = none)
    (hm : a.arg_mapping = none) :
    validate_classes [c] false false .WARNING =
      [⟨[.cls c, .func f], .ERROR, some .ReflexsiveNameConflictError,
        msgRule2⟩,
       ⟨[.cls c, .func f, .aliasInfo a], .ERROR,
        some .ReflexsiveNameConflictError, msgRule3 a⟩] := by
  simp [validate_classes, sortBy, insertSorted, checkClasses, checkClass, hf,
    checkFuncs, checkAliases, ha, checkAlias, hp, hn, hm, guardStop,
    add_warning, WarningLevel.value, isStrConst, pyTruthyConst,
    checkDuplicateAliasNames, warningSortDescLe, Except.bind, bind]

/-- Closed instance of the amended C1. -/
theorem bare_alias_two_errors_witness :
    validate_classes [bareAliasClass] false false .WARNING =
      [⟨[.cls bareAliasClass, .func bareAliasFunc], .ERROR,
        some .ReflexsiveNameConflictError, msgRule2⟩,
       ⟨[.cls bareAliasClass, .func bareAliasFunc, .aliasInfo bareAliasRecord],
        .ERROR, some .ReflexsiveNameConflictError, msgRule3 bareAliasRecord⟩] :=
  bare_alias_two_errors bareAliasClass bareAliasFunc bareAliasRecord
    rfl rfl rfl rfl rfl

/-- A class whose single retained function carries one well-formed called
alias with a truthy string name contributes no diagnostics at the WARNING
threshold. -/
lemma checkClass_single_plain_alias (c : ClassInfo) (f : FunctionInfo)
    (a : AliasInfo) (n : String) (hf : c.functions = [f])
    (ha : f.aliases = [a]) (hp : a.has_paren = true)
    (hn : a.alias_name = some (.str n)) (hne : n ≠ "")
    (hm : a.arg_mapping = none) :
    ∀ w, checkClass .WARNING false false w c = .ok w := by
  intro w
  simp [checkClass, hf, checkFuncs, checkAliases, ha, checkAlias, hp, hn, hne,
    hm, guardStop, add_warning, isStrConst, pyTruthyConst, aliasMapAppend,
    checkDuplicateAliasNames, pySetList, pySetListAux, Except.bind, bind]

/-- An `@A.alias('open')` record (decorator owned by subclass `a.A`). -/
def dupTargetAliasA : AliasInfo :=
  { qual_name := "a.A.alias", alias_name := some (.str "open"),
    arg_mapping := none, has_paren := true, path := "/proj/x.py", row := 3,
    column := 4, decl_line := "class X(A):" }

/-- An `@Reflexsive.alias('open')` record: same target name `'open'`,
different decorator qualified name. -/
def dupTargetAliasB : AliasInfo :=
  { qual_name := "reflexsive.Reflexsive.alias",
    alias_name := some (.str "open"), arg_mapping := none, has_paren := true,
    path := "/proj/x.py", row := 7, column := 4, decl_line := "class X(A):" }

/-- First function of the duplicate-target class. -/
def dupTargetFuncA : FunctionInfo :=
  { qual_name := "x.X.f1", path := "/proj/x.py", row := 4, column := 4,
    parameters := ["self"], aliases := [dupTargetAliasA],
    decl_line := "", full_impl := "" }

/-- Second, distinct function declaring the same target name through a
different decorator. -/
def dupTargetFuncB : FunctionInfo :=
  { qual_name := "x.X.f2", path := "/proj/x.py", row := 8, column := 4,
    parameters := ["self"], aliases := [dupTargetAliasB],
    decl_line := "", full_impl := "" }

/-- One class containing both functions. -/
def dupTargetClass : ClassInfo :=
  { qual_name := "x.X", path := "/proj/x.py", row := 1, column := 0,
    metaclass := "type", bases := ["a.A"],
    functions := [dupTargetFuncA, dupTargetFuncB], decl_line := "class X(A):",
    full_impl := "", is_valid_reflexsive := true }

/-- C3, refuted at a concrete input: two distinct functions of one class
both declare alias target `'open'`, but through decorators with different
qualified names, and validation emits no diagnostic at all — the rule-8
accumulator is keyed by `AliasInfo` equality (decorator qualified name,
target name, call-syntax flag), not by the target name. -/
theorem same_target_different_decorators_no_error :
    dupTargetFuncA ≠ dupTargetFuncB ∧
    dupTargetAliasA.alias_name = dupTargetAliasB.alias_name ∧
    dupTargetAliasA.qual_name ≠ dupTargetAliasB.qual_name ∧
    validate_classes [dupTargetClass] false false .WARNING = [] := by
  decide

/-- C3, amended: within one class, validation emits exactly one
class-level ERROR when two distinct functions declare aliases that are
equal as `AliasRecord`s — same decorator qualified name, same target name,
same call-syntax flag — and that diagnostic lists every distinct owning
function label; the same alias record reused across two different classes
never triggers the rule. -/
theorem rule8_keyed_by_alias_record
    (c d1 d2 : ClassInfo) (f g : FunctionInfo) (af ag : AliasInfo)
    (n : String)
    (hfg : c.functions = [f, g]) (haf : f.aliases = [af])
    (hag : g.aliases = [ag])
    (hpf : af.has_paren = true) (hpg : ag.has_paren = true)
    (hnf : af.alias_name = some (.str n)) (hng : ag.alias_name = some (.str n))
    (hne : n ≠ "")
    (hmf : af.arg_mapping = none) (hmg : ag.arg_mapping = none)
    (hq : ag.qual_name = af.qual_name)
    (hlabel : funcLabel c f ≠ funcLabel c g)
    (hd1 : d1.functions = [f]) (hd2 : d2.functions = [g]) :
    validate_classes [c] false false .WARNING =
      [⟨[.cls c, .aliasInfo af], .ERROR, some .ReflexsiveNameConflictError,
        msgRule8 [funcLabel c f, funcLabel c g]⟩] ∧
    validate_classes [d1, d2] false false .WARNING = [] := by
  constructor
  · simp [validate_classes, sortBy, insertSorted, checkClasses, checkClass,
      hfg, checkFuncs, checkAliases, haf, hag, checkAlias, hpf, hpg, hnf, hng,
      hne, hmf, hmg, guardStop, add_warning, WarningLevel.value, isStrConst,
      pyTruthyConst, aliasMapAppend, aliasInfoEq, hq, pyEqConst,
      checkDuplicateAliasNames, pySetList, pySetListAux, Ne.symm hlabel,
      warningSortDescLe, Except.bind, bind]
  · have h1 := checkClass_single_plain_alias d1 f af n hd1 haf hpf hnf hne hmf
    have h2 := checkClass_single_plain_alias d2 g ag n hd2 hag hpg hng hne hmg
    have hcc12 : checkClasses .WARNING false false [] [d1, d2] = .ok [] := by
      simp [checkClasses, h1, h2, Except.bind, bind]
    have hcc21 : checkClasses .WARNING false false [] [d2, d1] = .ok [] := by
      simp [checkClasses, h1, h2, Except.bind, bind]
    unfold validate_classes
    by_cases hle : classSortLe d1 d2 = true
    · rw [show sortBy classSortLe [d1, d2] = [d1, d2] by
        simp [sortBy, insertSorted, hle], hcc12]
      rfl
    · rw [show sortBy classSortLe [d1, d2] = [d2, d1] by
        simp [sortBy, insertSorted, hle], hcc21]
      rfl

/-- `@Reflexsive.alias('log')` on the first function. -/
def aliasLogFirst : AliasInfo :=
  { qual_name := "reflexsive.Reflexsive.alias", alias_name := some (.str "log"),
    arg_mapping := none, has_paren := true, path := "/proj/y.py", row := 3,
    column := 4, decl_line := "class Y(Reflexsive):" }

/-- The identical declaration on the second function (different line). -/
def aliasLogSecond : AliasInfo :=
  { aliasLogFirst with row := 7 }

/-- First owner of the duplicated alias record. -/
def dupRecordFuncA : FunctionInfo :=
  { qual_name := "y.Y.f1", path := "/proj/y.py", row := 4, column := 4,
    parameters := ["self"], aliases := [aliasLogFirst],
    decl_line := "", full_impl := "" }

/-- Second owner of the duplicated alias record. -/
def dupRecordFuncB : FunctionInfo :=
  { qual_name := "y.Y.f2", path := "/proj/y.py", row := 8, column := 4,
    parameters := ["self"], aliases := [aliasLogSecond],
    decl_line := "", full_impl := "" }

/-- Class owning both functions (rule 8 fires once). -/
def dupRecordClass : ClassInfo :=
  { qual_name := "y.Y", path := "/proj/y.py", row := 1, column := 0,
    metaclass := "type", bases := ["reflexsive.Reflexsive"],
    functions := [dupRecordFuncA, dupRecordFuncB],
    decl_line := "class Y(Reflexsive):", full_impl := "",
    is_valid_reflexsive := true }

/-- The first function moved into its own class (cross-class scenario). -/
def splitClassOne : ClassInfo :=
  { dupRecordClass with qual_name := "y.Y1", functions := [dupRecordFuncA] }

/-- The second function moved into its own class. -/
def splitClassTwo : ClassInfo :=
  { dupRecordClass with qual_name := "y.Y2", functions := [dupRecordFuncB] }

/-- Closed instance of the amended C3: one class-level ERROR listing both
function labels for the duplicated record in one class, and no diagnostic
when the two declarations live in different classes. -/
theorem rule8_keyed_by_alias_record_witness :
    validate_classes [dupRecordClass] false false .WARNING =
      [⟨[.cls dupRecordClass, .aliasInfo aliasLogFirst], .ERROR,
        some .ReflexsiveNameConflictError,
        msgRule8 [funcLabel dupRecordClass dupRecordFuncA,
          funcLabel dupRecordClass dupRecordFuncB]⟩] ∧
    validate_classes [splitClassOne, splitClassTwo] false false .WARNING =
      [] :=
  rule8_keyed_by_alias_record dupRecordClass splitClassOne splitClassTwo
    dupRecordFuncA dupRecordFuncB aliasLogFirst aliasLogSecond "log"
    rfl rfl rfl rfl rfl rfl rfl (by decide) rfl rfl rfl (by decide) rfl rfl

/-- Python `str.split('::')` over a character list (specialised two-colon
separator; leftmost match first, like `re`/`str.split`). -/
def splitDColonL : List Char → List (List Char)
  | [] => [[]]
  | [c] => [[c]]
  | c1 :: c2 :: cs =>
      if c1 = ':' ∧ c2 = ':' then [] :: splitDColonL cs
      else
        match splitDColonL (c2 :: cs) with
        | [] => [[c1]]
        | h :: t => (c1 :: h) :: t

/-- Python `expr.split('::')`. -/
def pySplitDColon (s : String) : List String :=
  (splitDColonL s.data).map String.mk

/-- Digit-folding helper for `int()`. -/
def pyNatAux (acc : Nat) : List Char → Option Nat
  | [] => some acc
  | c :: cs =>
      if c.isDigit then pyNatAux (acc * 10 + (c.toNat - 48)) cs else none

/-- Python `int(s)` on the sign-and-digits subset the templates use
(whitespace/underscore tolerance of CPython's parser is not modelled);
`none` models the `ValueError`. -/
def pyInt? (s : String) : Option Int :=
  match s.data with
  | [] => none
  | '-' :: rest =>
      if rest = [] then none
      else (pyNatAux 0 rest).map (fun n => -(n : Int))
  | '+' :: rest =>
      if rest = [] then none
      else (pyNatAux 0 rest).map (fun n => (n : Int))
  | l => (pyNatAux 0 l).map (fun n => (n : Int))

/-- Python tuple indexing `t[i]` with negative-index wrap-around; `none`
models the `IndexError`. -/
def pyTupleGet (l : List Info) (i : Int) : Option Info :=
  if 0 ≤ i then l.get? i.toNat
  else if (-i).toNat ≤ l.length then l.get? (l.length - (-i).toNat)
  else none

/-- Python `repr` of a simple string (quote-escaping not modelled). -/
def pyReprStr (s : String) : String := "'" ++ s ++ "'"

/-- Python `str` of a list of strings. -/
def pyStrStrList (l : List String) : String :=
  "[" ++ pyJoin ", " (l.map pyReprStr) ++ "]"

/-- Python `str` of a set of strings in the modelled iteration order. -/
def pyStrStrSet (l : List String) : String :=
  match l with
  | [] => "set()"
  | _ => "\x7b" ++ pyJoin ", " (l.map pyReprStr) ++ "\x7d"

/-- Python `repr` of a constant. -/
def pyReprConst : ConstV → String
  | .str s => pyReprStr s
  | .bytes b => "b" ++ pyReprStr (String.mk (b.map Char.ofNat))
  | .bool b => if b then "True" else "False"
  | .int n => toString n
  | .ellipsis => "Ellipsis"

/-- Python `str` of an optional remapping dict. -/
def pyStrMapping : Option (List (String × ConstV)) → String
  | none => "None"
  | some [] => "\x7b\x7d"
  | some entries =>
      "\x7b" ++
        pyJoin ", " (entries.map (fun kv => pyReprStr kv.1 ++ ": " ++
          pyReprConst kv.2)) ++ "\x7d"

/-- The value of one attribute of an `Info` record, before `str()`. -/
inductive FieldVal where
  | s (v : String)
  | n (v : Nat)
  | b (v : Bool)
  | oconst (v : Option ConstV)
  | strSet (v : List String)
  | mapping (v : Option (List (String × ConstV)))
  deriving DecidableEq, Repr

/-- `str()` applied to an attribute value. -/
def pyStrField : FieldVal → String
  | .s v => v
  | .n v => toString v
  | .b v => if v then "True" else "False"
  | .oconst v => pyStrConst v
  | .strSet v => pyStrStrSet v
  | .mapping v => pyStrMapping v

/-- Attribute table of `AliasInfo` (dataclass fields plus the `Info`
properties).  Callable attributes, dunders and nested-dataclass
collections are outside the model — no diagnostic template refers to
them. -/
def aliasFieldVal (a : AliasInfo) : String → Option FieldVal
  | "qual_name" => some (.s a.qual_name)
  | "alias_name" => some (.oconst a.alias_name)
  | "arg_mapping" => some (.mapping a.arg_mapping)
  | "has_paren" => some (.b a.has_paren)
  | "path" => some (.s a.path)
  | "row" => some (.n a.row)
  | "column" => some (.n a.column)
  | "decl_line" => some (.s a.decl_line)
  | "name" => some (.s (split_qual_name a.qual_name).2)
  | "colored_name" => some (.s (aliasColoredName a))
  | "location" => some (.s (Info.location (.aliasInfo a)))
  | "colored_location" => some (.s (Info.colored_location (.aliasInfo a)))
  | _ => none

/-- Attribute table of `FunctionInfo`. -/
def funcFieldVal (f : FunctionInfo) : String → Option FieldVal
  | "qual_name" => some (.s f.qual_name)
  | "path" => some (.s f.path)
  | "row" => some (.n f.row)
  | "column" => some (.n f.column)
  | "parameters" => some (.strSet f.parameters)
  | "decl_line" => some (.s f.decl_line)
  | "full_impl" => some (.s f.full_impl)
  | "name" => some (.s (split_qual_name f.qual_name).2)
  | "colored_name" => some (.s (funcColoredName f))
  | "location" => some (.s (Info.location (.func f)))
  | "colored_location" => some (.s (Info.colored_location (.func f)))
  | _ => none

/-- Attribute table of `ClassInfo`. -/
def clsFieldVal (c : ClassInfo) : String → Option FieldVal
  | "qual_name" => some (.s c.qual_name)
  | "path" => some (.s c.path)
  | "row" => some (.n c.row)
  | "column" => some (.n c.column)
  | "metaclass" => some (.s c.metaclass)
  | "bases" => some (.strSet c.bases)
  | "decl_line" => some (.s c.decl_line)
  | "full_impl" => some (.s c.full_impl)
  | "is_valid_reflexsive" => some (.b c.is_valid_reflexsive)
  | "name" => some (.s (split_qual_name c.qual_name).2)
  | "colored_name" => some (.s (classColoredName c))
  | "location" => some (.s (Info.location (.cls c)))
  | "colored_location" => some (.s (Info.colored_location (.cls c)))
  | _ => none

/-- `getattr`/`hasattr` over the closed record-kind set: `none` means the
attribute does not exist (`hasattr` is false). -/
def infoFieldVal : Info → String → Option FieldVal
  | .cls c, fld => clsFieldVal c fld
  | .func f, fld => funcFieldVal f fld
  | .aliasInfo a, fld => aliasFieldVal a fld

/-- The `replacer` closure of `Warning.message`: resolve one `$(...)`
back-reference expression against the associated records.  More than two
`::`-components, an unparsable index, a 1-based index at or above the
record count, an index below the negative wrap-around range, and a missing
attribute all raise (`Except.error` carries the exception text); an index
of zero or a small negative index wraps around Python-style. -/
def replacer (info_objs : List Info) (expr : String) : Except String String :=
  let split := pySplitDColon expr
  if split.length > 2 then
    .error ("Unknown dynamic field components " ++
      pyStrStrList (split.drop 2) ++ ".")
  else
    let indexE : Except String Int :=
      if split.length = 2 then
        match pyInt? ((split.get? 0).getD "") with
        | some i => .ok (i - 1)
        | none => .error ("invalid literal for int() with base 10: " ++
            pyReprStr ((split.get? 0).getD ""))
      else .ok 0
    match indexE with
    | .error e => .error e
    | .ok index =>
        if index ≥ (info_objs.length : Int) then
          .error ("Invalid dynamic field index " ++ toString index ++ ".")
        else
          let field := (split.getLast?).getD ""
          match pyTupleGet info_objs index with
          | none => .error "tuple index out of range"
          | some obj =>
              match infoFieldVal obj field with
              | none => .error ("Invalid dynamic field '" ++ expr ++ "'.")
              | some v => .ok (pyStrField v)

/-- `re.sub(r'$\((.*?)\)', replacer, message)` driven by a fuel bound (the
input length dominates the number of scan steps): find each `$(`, take the
lazy match up to the first `)`, and splice the replacer's output; a raise
inside the replacer aborts the whole rendering. -/
def renderTemplateAux (info_objs : List Info) :
    Nat → List Char → Except String (List Char)
  | 0, l => .ok l
  | _ + 1, [] => .ok []
  | fuel + 1, '$' :: '(' :: rest =>
      let inner := rest.takeWhile (fun c => c ≠ ')')
      match rest.dropWhile (fun c => c ≠ ')') with
      | [] => .ok ('$' :: '(' :: rest)
      | _ :: after => do
          let rep ← replacer info_objs (String.mk inner)
          let tail ← renderTemplateAux info_objs fuel after
          .ok (rep.data ++ tail)
  | fuel + 1, c :: rest => do
      let tail ← renderTemplateAux info_objs fuel rest
      .ok (c :: tail)

/-- The dynamic-field substitution pass of `Warning.message`. -/
def renderTemplate (info_objs : List Info) (message : String) :
    Except String String :=
  (renderTemplateAux info_objs message.data.length message.data).map String.mk

/-- `WarningLevel.__str__`. -/
def WarningLevel.str : WarningLevel → String
  | .INFO => "\x1b[30m\x1b[4m[Info]:\x1b[0m"
  | .WARNING => "\x1b[33m\x1b[4m[Warning]:\x1b[0m"
  | .ERROR => "\x1b[31m\x1b[1m\x1b[4m[Error]:\x1b[0m"

/-- `Exception.__name__` for the attached exception types. -/
def excTypeName : ExcType → String
  | .ReflexsiveNameConflictError => "ReflexsiveNameConflictError"
  | .ReflexsiveArgumentError => "ReflexsiveArgumentError"
  | .TypeError => "TypeError"

/-- The `Warning.message` property: level prefix, optional `raises ...`
segment, then the template with its back-references resolved; any raise
inside the replacer propagates. -/
def warningMessage (w : Warning) : Except String String := do
  let rendered ← renderTemplate w.info_objs w._message
  .ok (w.level.str ++ " " ++
    (match w.exec_typ with
     | some t => "raises " ++ ("\x1b[31m" ++ excTypeName t ++ "\x1b[0m") ++ ": "
     | none => "") ++ rendered)

lemma splitDColonL_no_colon (b : List Char) :
    ':' ∉ b → splitDColonL b = [b] := by
  induction b with
  | nil => intro _; rfl
  | cons c cs ih =>
      intro hb
      have hc : c ≠ ':' := fun h => hb (h ▸ List.mem_cons_self c cs)
      have hcs : ':' ∉ cs := fun h => hb (List.mem_cons_of_mem _ h)
      cases cs with
      | nil => rfl
      | cons c2 cs2 =>
          show splitDColonL (c :: c2 :: cs2) = [c :: c2 :: cs2]
          have hcond : ¬ (c = ':' ∧ c2 = ':') := fun h => hc h.1
          simp only [splitDColonL, if_neg hcond]
          rw [ih hcs]

lemma splitDColonL_mid (b : List Char) (hb : ':' ∉ b) :
    ∀ a : List Char, ':' ∉ a →
      splitDColonL (a ++ ':' :: ':' :: b) = [a, b] := by
  intro a
  induction a with
  | nil =>
      intro _
      show splitDColonL (':' :: ':' :: b) = [[], b]
      simp [splitDColonL, splitDColonL_no_colon b hb]
  | cons c cs ih =>
      intro ha
      have hc : c ≠ ':' := fun h => ha (h ▸ List.mem_cons_self c cs)
      have hcs : ':' ∉ cs := fun h => ha (List.mem_cons_of_mem _ h)
      cases cs with
      | nil =>
          show splitDColonL ([c] ++ ':' :: ':' :: b) = [[c], b]
          simp only [List.cons_append, List.nil_append]
          simp [splitDColonL, hc, splitDColonL_no_colon b hb]
      | cons c2 cs2 =>
          have htail := ih hcs
          show splitDColonL (c :: (c2 :: cs2) ++ ':' :: ':' :: b) =
            [c :: c2 :: cs2, b]
          simp only [List.cons_append] at htail ⊢
          simp [splitDColonL, hc, htail]

lemma pySplitDColon_mid (s fld : String) (hs : ':' ∉ s.data)
    (hf : ':' ∉ fld.data) :
    pySplitDColon (s ++ "::" ++ fld) = [s, fld] := by
  have hdata : (s ++ "::" ++ fld).data = s.data ++ ':' :: ':' :: fld.data := by
    rw [String.data_append, String.data_append,
      show ("::" : String).data = [':', ':'] from rfl, List.append_assoc]
    rfl
  unfold pySplitDColon
  rw [hdata, splitDColonL_mid fld.data hf s.data hs]
  simp

/-- A record for exercising template back-references. -/
def templAlias : AliasInfo :=
  { qual_name := "reflexsive.Reflexsive.alias", alias_name := some (.str "open"),
    arg_mapping := none, has_paren := true, path := "/proj/a.py", row := 6,
    column := 4, decl_line := "class A(Reflexsive):" }

/-- C8, refuted at a concrete input: a `$(0::field)` back-reference names
record index 0, which is outside the diagnostic's 1-based tuple range
(its only valid index is 1), yet rendering does not raise — the internal
index `0 - 1 = -1` wraps around Python-style and silently substitutes the
last record's field. -/
theorem template_index_zero_renders :
    replacer [.aliasInfo templAlias] "0::qual_name" =
      .ok "reflexsive.Reflexsive.alias" ∧
    warningMessage
        ⟨[.aliasInfo templAlias], .ERROR, none, "$(0::qual_name)"⟩ =
      .ok ("\x1b[31m\x1b[1m\x1b[4m[Error]:\x1b[0m reflexsive.Reflexsive.alias") :=
  ⟨rfl, rfl⟩

/-- C8, amended: rendering a two-component back-reference `$(i::field)`
never silently substitutes a blank — it succeeds exactly when the internal
index `i - 1` designates a record under Python tuple indexing (so `i - 1 ≥
count` raises, `i - 1 < -count` raises, and indices in between — including
the wrap-around range `1 - count ≤ i ≤ 0` — resolve) and the designated
record has the referenced field; in every other case it raises. -/
theorem replacer_index_field_semantics (objs : List Info) (s fld : String)
    (i : Int) (hs : ':' ∉ s.data) (hf : ':' ∉ fld.data)
    (hparse : pyInt? s = some i) :
    (∃ out, replacer objs (s ++ "::" ++ fld) = .ok out) ↔
      (∃ obj, pyTupleGet objs (i - 1) = some obj ∧
        (infoFieldVal obj fld).isSome = true) := by
  have hsplit := pySplitDColon_mid s fld hs hf
  simp only [replacer, hsplit]
  simp only [List.length_cons, List.length_nil, List.get?, List.getLast?,
    Option.getD_some, hparse]
  norm_num
  by_cases hidx : (objs.length : Int) ≤ i - 1
  · rw [if_pos hidx]
    constructor
    · rintro ⟨out, hout⟩; exact absurd hout (by simp)
    · rintro ⟨obj, hobj, -⟩
      have hnone : pyTupleGet objs (i - 1) = none := by
        unfold pyTupleGet
        have h0 : (0 : Int) ≤ i - 1 :=
          le_trans (Int.ofNat_nonneg objs.length) hidx
        rw [if_pos h0]
        rw [List.get?_eq_none]
        omega
      rw [hnone] at hobj
      exact absurd hobj (by simp)
  · rw [if_neg hidx]
    cases hget : pyTupleGet objs (i - 1) with
    | none => simp [hget]
    | some obj =>
        cases hfv : infoFieldVal obj fld with
        | none => simp [hget, hfv]
        | some v => simp [hget, hfv]

/-- Closed instance of the amended C8 at index 1 and field `qual_name`. -/
theorem replacer_index_field_semantics_witness :
    (∃ out, replacer [.aliasInfo templAlias] ("1" ++ "::" ++ "qual_name") =
        .ok out) ↔
      (∃ obj, pyTupleGet [.aliasInfo templAlias] (1 - 1) = some obj ∧
        (infoFieldVal obj "qual_name").isSome = true) :=
  replacer_index_field_semantics [.aliasInfo templAlias] "1" "qual_name" 1
    (by decide) (by decide) (by decide)

/-- Generic single-character split (Python `str.split(sep)` semantics). -/
def splitCharL (sep : Char) : List Char → List (List Char)
  | [] => [[]]
  | c :: cs =>
      let r := splitCharL sep cs
      if c = sep then [] :: r
      else
        match r with
        | [] => [[c]]
        | h :: t => (c :: h) :: t

/-- `text.split('\n')`. -/
def splitLinesL (l : List Char) : List (List Char) := splitCharL '\n' l

/-- `'\n'.join(lines)`. -/
def unlinesL : List (List Char) → List Char
  | [] => []
  | [x] => x
  | x :: xs => x ++ '\n' :: unlinesL xs

/-- Python whitespace for `str.strip()` (the stub merger only meets spaces
and tabs). -/
def isSpaceB (c : Char) : Bool := c = ' ' || c = '\t'

/-- `str.lstrip()`. -/
def ltrimL (l : List Char) : List Char := l.dropWhile isSpaceB

/-- `str.rstrip()`. -/
def rtrimL (l : List Char) : List Char :=
  (l.reverse.dropWhile isSpaceB).reverse

/-- `str.strip()`. -/
def trimL (l : List Char) : List Char := rtrimL (ltrimL l)

/-- Modelled from the spec (§4.5 Stub Merger; `stubgen.py` is not among
the sources): the matching key of a stub line — the declared method name
for a `def` line (up to the parameter list), the stripped line itself
otherwise, so non-method lines only ever match their own text. -/
def lineKey (l : List Char) : List Char :=
  let t := trimL l
  if ("def ".data).isPrefixOf t then (t.drop 4).takeWhile (fun c => !(c == '('))
  else t

/-- Modelled from the spec: the class name declared by a stub line, when
the stripped line is a `class` declaration (name up to `(`, `:` or end). -/
def classNameOf (l : List Char) : Option (List Char) :=
  let t := trimL l
  if ("class ".data).isPrefixOf t then
    some ((t.drop 6).takeWhile (fun c => !(c == '(' || c == ':')))
  else none

/-- Does this line open the class block named `C`? -/
def isHeaderFor (C l : List Char) : Bool := classNameOf l == some C

/-- Modelled from the spec: a class block extends until the first
following line that is non-blank and not indented (a dedented top-level
statement terminates the block). -/
def isTermL : List Char → Bool
  | [] => false
  | c :: _ => !isSpaceB c

/-- One level of indentation for merged method lines. -/
def indentL (l : List Char) : List Char := "    ".data ++ l

/-- The header line written for a newly appended class block. -/
def headerOfC (C : List Char) : List Char := "class ".data ++ C ++ [':']

/-- Locate the first line opening class `C`, splitting the line list into
the prefix before it, the header line, and the rest. -/
def findHeader (C : List Char) :
    List (List Char) → Option (List (List Char) × List Char × List (List Char))
  | [] => none
  | l :: ls =>
      if isHeaderFor C l then some ([], l, ls)
      else
        match findHeader C ls with
        | none => none
        | some (pre, h, rest) => some (l :: pre, h, rest)

/-- Modelled from the spec: an existing block line whose key matches an
incoming method line is replaced in place by that incoming line, indented
one level; other lines are preserved verbatim. -/
def replaceLine (ms : List (List Char)) (l : List Char) : List Char :=
  match ms.find? (fun m => lineKey m == lineKey l) with
  | some m => indentL m
  | none => l

/-- Modelled from the spec (§4.5): merge an ordered method-stub-line list
into the persisted stub's line list — append a fresh block when no header
for the class exists; otherwise replace matching method lines in place,
preserve all other block lines verbatim and in order, and append the
unmatched incoming methods at the end of the block. -/
def stubUpdateClassL (lines : List (List Char)) (C : List Char)
    (ms : List (List Char)) : List (List Char) :=
  match findHeader C lines with
  | none => lines ++ [headerOfC C] ++ ms.map indentL
  | some (pre, hdr, rest) =>
      let block := rest.takeWhile (fun l => !isTermL l)
      let after := rest.dropWhile (fun l => !isTermL l)
      let blockKeys := block.map lineKey
      let replaced := block.map (replaceLine ms)
      let appended :=
        (ms.filter (fun m => !(blockKeys.contains (lineKey m)))).map indentL
      pre ++ [hdr] ++ replaced ++ appended ++ after

/-- Modelled from the spec: `stub_update_class(full_stub_text, class_name,
method_stubs)` — split into lines, merge, and join back. -/
def stub_update_class (full_stub_text : String) (class_name : String)
    (method_stubs : List String) : String :=
  String.mk (unlinesL (stubUpdateClassL (splitLinesL full_stub_text.data)
    class_name.data (method_stubs.map String.data)))

lemma splitCharL_no_sep (sep : Char) (l : List Char) (h : sep ∉ l) :
    splitCharL sep l = [l] := by
  induction l with
  | nil => rfl
  | cons c cs ih =>
      have hc : c ≠ sep := fun he => h (he ▸ List.mem_cons_self c cs)
      have hcs : sep ∉ cs := fun he => h (List.mem_cons_of_mem _ he)
      simp [splitCharL, hc, ih hcs]

lemma splitCharL_append_sep (sep : Char) (a b : List Char) (ha : sep ∉ a) :
    splitCharL sep (a ++ sep :: b) = a :: splitCharL sep b := by
  induction a with
  | nil => simp [splitCharL]
  | cons c cs ih =>
      have hc : c ≠ sep := fun he => ha (he ▸ List.mem_cons_self c cs)
      have hcs : sep ∉ cs := fun he => ha (List.mem_cons_of_mem _ he)
      simp [splitCharL, hc, ih hcs]

lemma splitCharL_mem (sep : Char) (l : List Char) :
    ∀ x ∈ splitCharL sep l, sep ∉ x := by
  induction l with
  | nil =>
      intro x hx
      simp [splitCharL] at hx
      simp [hx]
  | cons c cs ih =>
      intro x hx
      by_cases hc : c = sep
      · simp [splitCharL, hc] at hx
        rcases hx with h | h
        · simp [h]
        · exact ih x h
      · rcases hr : splitCharL sep cs with _ | ⟨rh, rt⟩
        · simp [splitCharL, hc, hr] at hx
          rw [hx]
          intro hmem
          simp at hmem
          exact hc hmem.symm
        · simp [splitCharL, hc, hr] at hx
          rcases hx with h | h
          · have hrh : sep ∉ rh := ih rh (by rw [hr]; exact List.mem_cons_self _ _)
            rw [h]
            intro hmem
            rcases List.mem_cons.mp hmem with he | he
            · exact hc he.symm
            · exact hrh he
          · exact ih x (by rw [hr]; exact List.mem_cons_of_mem _ h)

lemma splitLines_unlines (ls : List (List Char)) (hne : ls ≠ [])
    (h : ∀ l ∈ ls, '\n' ∉ l) : splitLinesL (unlinesL ls) = ls := by
  induction ls with
  | nil => exact absurd rfl hne
  | cons x xs ih =>
      cases xs with
      | nil =>
          show splitLinesL (unlinesL [x]) = [x]
          exact splitCharL_no_sep '\n' x (h x (by simp))
      | cons y ys =>
          show splitCharL '\n' (x ++ '\n' :: unlinesL (y :: ys)) = x :: y :: ys
          rw [splitCharL_append_sep '\n' x _ (h x (by simp))]
          have hih := ih (by simp) (fun l hl => h l (List.mem_cons_of_mem _ hl))
          unfold splitLinesL at hih
          rw [hih]

lemma ltrimL_indent (m : List Char) : ltrimL (indentL m) = ltrimL m := rfl

lemma trimL_indent (m : List Char) : trimL (indentL m) = trimL m := by
  unfold trimL
  rw [ltrimL_indent]

lemma lineKey_indent (m : List Char) : lineKey (indentL m) = lineKey m := by
  unfold lineKey
  rw [trimL_indent]

lemma isTermL_indent (m : List Char) : isTermL (indentL m) = false := rfl

lemma isPrefixOf_append_self (l r : List Char) :
    l.isPrefixOf (l ++ r) = true := by
  induction l with
  | nil => simp [List.isPrefixOf]
  | cons c cs ih => simp [List.isPrefixOf, ih]

lemma takeWhile_all (p : α → Bool) (xs : List α) (h : ∀ x ∈ xs, p x = true) :
    xs.takeWhile p = xs := by
  induction xs with
  | nil => rfl
  | cons x xs ih =>
      rw [List.takeWhile_cons, if_pos (h x (by simp))]
      rw [ih (fun y hy => h y (List.mem_cons_of_mem _ hy))]

lemma dropWhile_all (p : α → Bool) (xs : List α) (h : ∀ x ∈ xs, p x = true) :
    xs.dropWhile p = [] := by
  induction xs with
  | nil => rfl
  | cons x xs ih =>
      rw [List.dropWhile_cons, if_pos (h x (by simp))]
      exact ih (fun y hy => h y (List.mem_cons_of_mem _ hy))

lemma takeWhile_append_all (p : α → Bool) (xs ys : List α)
    (h : ∀ x ∈ xs, p x = true) :
    (xs ++ ys).takeWhile p = xs ++ ys.takeWhile p := by
  induction xs with
  | nil => rfl
  | cons x xs ih =>
      rw [List.cons_append, List.takeWhile_cons, if_pos (h x (by simp))]
      rw [ih (fun y hy => h y (List.mem_cons_of_mem _ hy))]
      rfl

lemma dropWhile_append_all (p : α → Bool) (xs ys : List α)
    (h : ∀ x ∈ xs, p x = true) :
    (xs ++ ys).dropWhile p = ys.dropWhile p := by
  induction xs with
  | nil => rfl
  | cons x xs ih =>
      rw [List.cons_append, List.dropWhile_cons, if_pos (h x (by simp))]
      exact ih (fun y hy => h y (List.mem_cons_of_mem _ hy))

lemma dropWhile_head_false (p : α → Bool) (l : List α) (a : α) (t : List α)
    (h : l.dropWhile p = a :: t) : p a = false := by
  induction l with
  | nil => exact absurd h (by simp)
  | cons x xs ih =>
      rw [List.dropWhile_cons] at h
      by_cases hx : p x = true
      · rw [if_pos hx] at h
        exact ih h
      · rw [if_neg hx] at h
        cases h
        exact Bool.not_eq_true _ ▸ (by simpa using hx)

lemma mem_takeWhile_pred (p : α → Bool) (l : List α) :
    ∀ x ∈ l.takeWhile p, p x = true := by
  induction l with
  | nil => intro x hx; exact absurd hx (by simp)
  | cons y ys ih =>
      intro x hx
      rw [List.takeWhile_cons] at hx
      by_cases hy : p y = true
      · rw [if_pos hy] at hx
        rcases List.mem_cons.mp hx with h | h
        · rw [h]; exact hy
        · exact ih x h
      · rw [if_neg hy] at hx
        exact absurd hx (by simp)

lemma rtrimL_last_not_space (l : List Char) (c : Char)
    (hc : isSpaceB c = false) : rtrimL (l ++ [c]) = l ++ [c] := by
  unfold rtrimL
  rw [List.reverse_append]
  show ((c :: l.reverse).dropWhile isSpaceB).reverse = l ++ [c]
  rw [List.dropWhile_cons, if_neg (by simp [hc])]
  simp

lemma classNameOf_headerOf (C : List Char)
    (hC : ∀ c ∈ C, c ≠ '(' ∧ c ≠ ':') :
    classNameOf (headerOfC C) = some C := by
  have htrim : trimL (headerOfC C) = headerOfC C := by
    unfold trimL
    have hl : ltrimL (headerOfC C) = headerOfC C := rfl
    rw [hl]
    exact rtrimL_last_not_space ("class ".data ++ C) ':' rfl
  have hshape : headerOfC C = "class ".data ++ (C ++ [':']) := by
    unfold headerOfC
    rw [List.append_assoc]
  unfold classNameOf
  rw [htrim, hshape, if_pos (isPrefixOf_append_self _ _)]
  have hdrop : ("class ".data ++ (C ++ [':'])).drop 6 = C ++ [':'] := by
    rw [show (6 : Nat) = ("class ".data).length from rfl, List.drop_left]
  rw [hdrop]
  rw [takeWhile_append_all _ C [':']
    (fun c hc => by simp [(hC c hc).1, (hC c hc).2])]
  simp

lemma isHeaderFor_headerOf (C : List Char)
    (hC : ∀ c ∈ C, c ≠ '(' ∧ c ≠ ':') :
    isHeaderFor C (headerOfC C) = true := by
  unfold isHeaderFor
  rw [classNameOf_headerOf C hC]
  simp

lemma findHeader_none_mem (C : List Char) (ls : List (List Char))
    (h : findHeader C ls = none) : ∀ l ∈ ls, isHeaderFor C l = false := by
  induction ls with
  | nil => intro l hl; exact absurd hl (by simp)
  | cons x xs ih =>
      intro l hl
      unfold findHeader at h
      by_cases hx : isHeaderFor C x = true
      · rw [if_pos hx] at h; exact absurd h (by simp)
      · rw [if_neg hx] at h
        rcases List.mem_cons.mp hl with he | he
        · rw [he]; exact Bool.not_eq_true _ ▸ (by simpa using hx)
        · rcases hrec : findHeader C xs with _ | v
          · exact ih hrec l he
          · rw [hrec] at h
            exact absurd h (by simp)

lemma findHeader_some_decomp (C : List Char) (ls pre : List (List Char))
    (hdr : List Char) (rest : List (List Char))
    (h : findHeader C ls = some (pre, hdr, rest)) :
    ls = pre ++ hdr :: rest ∧ (∀ l ∈ pre, isHeaderFor C l = false) ∧
      isHeaderFor C hdr = true := by
  induction ls generalizing pre with
  | nil => exact absurd h (by simp [findHeader])
  | cons x xs ih =>
      unfold findHeader at h
      by_cases hx : isHeaderFor C x = true
      · rw [if_pos hx] at h
        simp at h
        obtain ⟨h1, h2, h3⟩ := h
        subst h1; subst h2; subst h3
        exact ⟨rfl, by simp, hx⟩
      · rw [if_neg hx] at h
        rcases hrec : findHeader C xs with _ | ⟨pre2, hdr2, rest2⟩ <;>
          rw [hrec] at h
        · exact absurd h (by simp)
        · simp at h
          obtain ⟨h1, h2, h3⟩ := h
          subst h1; subst h2; subst h3
          obtain ⟨g1, g2, g3⟩ := ih pre2 hrec
          refine ⟨by rw [List.cons_append, ← g1], ?_, g3⟩
          intro l hl
          rcases List.mem_cons.mp hl with he | he
          · rw [he]; exact Bool.not_eq_true _ ▸ (by simpa using hx)
          · exact g2 l he

lemma findHeader_of_first (C : List Char) (pre : List (List Char))
    (hdr : List Char) (rest : List (List Char))
    (hpre : ∀ l ∈ pre, isHeaderFor C l = false)
    (hhdr : isHeaderFor C hdr = true) :
    findHeader C (pre ++ hdr :: rest) = some (pre, hdr, rest) := by
  induction pre with
  | nil =>
      rw [List.nil_append]
      unfold findHeader
      rw [if_pos hhdr]
  | cons x xs ih =>
      rw [List.cons_append]
      unfold findHeader
      rw [if_neg (by simp [hpre x (by simp)])]
      rw [ih (fun l hl => hpre l (List.mem_cons_of_mem _ hl))]

lemma find?_key_self (ms : List (List Char)) (m : List Char)
    (hnd : (ms.map lineKey).Nodup) (hm : m ∈ ms) :
    ms.find? (fun x => lineKey x == lineKey m) = some m := by
  induction ms with
  | nil => exact absurd hm (by simp)
  | cons x xs ih =>
      rw [List.map_cons, List.nodup_cons] at hnd
      obtain ⟨hx, hnd2⟩ := hnd
      by_cases hxm : (lineKey x == lineKey m) = true
      · have hxe : lineKey x = lineKey m := eq_of_beq hxm
        rcases List.mem_cons.mp hm with he | he
        · rw [List.find?_cons, hxm]
          rw [he]
        · exact absurd (hxe ▸ List.mem_map_of_mem lineKey he) hx
      · rw [List.find?_cons]
        rw [Bool.not_eq_true] at hxm
        rw [hxm]
        have hmem : m ∈ xs := by
          rcases List.mem_cons.mp hm with he | he
          · exfalso
            rw [he] at hxm
            simp at hxm
          · exact he
        exact ih hnd2 hmem

lemma replaceLine_key (ms : List (List Char)) (l : List Char) :
    lineKey (replaceLine ms l) = lineKey l := by
  unfold replaceLine
  rcases hfind : ms.find? (fun m => lineKey m == lineKey l) with _ | m
  · rfl
  · rw [lineKey_indent]
    have hp : (lineKey m == lineKey l) = true := by
      simpa using List.find?_some hfind
    exact eq_of_beq hp

lemma replaceLine_indent_mem (ms : List (List Char)) (m : List Char)
    (hnd : (ms.map lineKey).Nodup) (hm : m ∈ ms) :
    replaceLine ms (indentL m) = indentL m := by
  unfold replaceLine
  have : (fun x => lineKey x == lineKey (indentL m)) =
      (fun x => lineKey x == lineKey m) := by
    funext x
    rw [lineKey_indent]
  rw [this, find?_key_self ms m hnd hm]

lemma replaceLine_idem (ms : List (List Char)) (l : List Char)
    (hnd : (ms.map lineKey).Nodup) :
    replaceLine ms (replaceLine ms l) = replaceLine ms l := by
  rcases hfind : ms.find? (fun m => lineKey m == lineKey l) with _ | m
  · have hl : replaceLine ms l = l := by
      unfold replaceLine
      rw [hfind]
    rw [hl]
    exact hl
  · have hl : replaceLine ms l = indentL m := by
      unfold replaceLine
      rw [hfind]
    rw [hl]
    exact replaceLine_indent_mem ms m hnd (List.mem_of_find?_eq_some hfind)

lemma isTermL_replaceLine_false (ms : List (List Char)) (l : List Char)
    (h : isTermL l = false) : isTermL (replaceLine ms l) = false := by
  unfold replaceLine
  rcases ms.find? (fun m => lineKey m == lineKey l) with _ | m
  · exact h
  · exact isTermL_indent m

lemma stubUpdateClassL_idem (lines : List (List Char)) (C : List Char)
    (ms : List (List Char))
    (hC : ∀ c ∈ C, c ≠ '(' ∧ c ≠ ':')
    (hnd : (ms.map lineKey).Nodup) :
    stubUpdateClassL (stubUpdateClassL lines C ms) C ms =
      stubUpdateClassL lines C ms := by
  rcases hfind : findHeader C lines with _ | ⟨pre, hdr, rest⟩
  · -- no existing block: a fresh one is appended, and the second run
    -- finds it and leaves it unchanged
    have hout : stubUpdateClassL lines C ms =
        lines ++ [headerOfC C] ++ ms.map indentL := by
      unfold stubUpdateClassL
      rw [hfind]
    rw [hout]
    have hfind2 : findHeader C (lines ++ [headerOfC C] ++ ms.map indentL) =
        some (lines, headerOfC C, ms.map indentL) := by
      rw [List.append_assoc, List.singleton_append]
      exact findHeader_of_first C lines (headerOfC C) (ms.map indentL)
        (findHeader_none_mem C lines hfind) (isHeaderFor_headerOf C hC)
    have hblockall : ∀ l ∈ ms.map indentL, (!isTermL l) = true := by
      intro l hl
      rcases List.mem_map.mp hl with ⟨m, _, hm⟩
      rw [← hm, isTermL_indent]
      rfl
    have hreplaced : (ms.map indentL).map (replaceLine ms) = ms.map indentL := by
      rw [List.map_map]
      apply List.map_congr_left
      intro m hm
      exact replaceLine_indent_mem ms m hnd hm
    have hkeys : (ms.map indentL).map lineKey = ms.map lineKey := by
      rw [List.map_map]
      apply List.map_congr_left
      intro m _
      exact lineKey_indent m
    have hfilter :
        ms.filter (fun m => !((ms.map indentL).map lineKey).contains (lineKey m)) = [] := by
      rw [List.filter_eq_nil_iff]
      intro m hm
      rw [hkeys]
      have hmem : (ms.map lineKey).contains (lineKey m) = true :=
        List.elem_eq_true_of_mem (List.mem_map_of_mem lineKey hm)
      rw [hmem]
      simp
    simp only [stubUpdateClassL, hfind2]
    rw [takeWhile_all _ _ hblockall, dropWhile_all _ _ hblockall, hreplaced,
      hfilter]
    simp
  · -- an existing block: the first run rewrote it so that every incoming
    -- key is present; the second run replaces each line with itself and
    -- appends nothing
    obtain ⟨hls, hpre, hhdr⟩ := findHeader_some_decomp C lines pre hdr rest hfind
    have hout : stubUpdateClassL lines C ms =
        pre ++ [hdr] ++
          (rest.takeWhile (fun l => !isTermL l)).map (replaceLine ms) ++
          (ms.filter (fun m =>
            !(((rest.takeWhile (fun l => !isTermL l)).map lineKey).contains
              (lineKey m)))).map indentL ++
          rest.dropWhile (fun l => !isTermL l) := by
      unfold stubUpdateClassL
      rw [hfind]
    rw [hout]
    have hrepall : ∀ l ∈ (rest.takeWhile (fun l => !isTermL l)).map
        (replaceLine ms), (!isTermL l) = true := by
      intro l hl
      rcases List.mem_map.mp hl with ⟨b, hb, he⟩
      have hbp := mem_takeWhile_pred _ rest b hb
      rw [← he, isTermL_replaceLine_false ms b (by simpa using hbp)]
      rfl
    have happall : ∀ l ∈ (ms.filter (fun m =>
        !(((rest.takeWhile (fun l => !isTermL l)).map lineKey).contains
          (lineKey m)))).map indentL, (!isTermL l) = true := by
      intro l hl
      rcases List.mem_map.mp hl with ⟨m, _, hm⟩
      rw [← hm, isTermL_indent]
      rfl
    have hafterTD : (rest.dropWhile (fun l => !isTermL l)).takeWhile
          (fun l => !isTermL l) = [] ∧
        (rest.dropWhile (fun l => !isTermL l)).dropWhile
          (fun l => !isTermL l) = rest.dropWhile (fun l => !isTermL l) := by
      rcases haft : rest.dropWhile (fun l => !isTermL l) with _ | ⟨a, t⟩
      · exact ⟨rfl, rfl⟩
      · have hpa := dropWhile_head_false (fun l => !isTermL l) rest a t haft
        constructor
        · rw [List.takeWhile_cons, if_neg (by simp [hpa])]
        · rw [List.dropWhile_cons, if_neg (by simp [hpa])]
    have hfind2 : findHeader C (pre ++ [hdr] ++
        (rest.takeWhile (fun l => !isTermL l)).map (replaceLine ms) ++
        (ms.filter (fun m =>
          !(((rest.takeWhile (fun l => !isTermL l)).map lineKey).contains
            (lineKey m)))).map indentL ++
        rest.dropWhile (fun l => !isTermL l)) =
        some (pre, hdr,
          (rest.takeWhile (fun l => !isTermL l)).map (replaceLine ms) ++
          ((ms.filter (fun m =>
            !(((rest.takeWhile (fun l => !isTermL l)).map lineKey).contains
              (lineKey m)))).map indentL ++
          rest.dropWhile (fun l => !isTermL l))) := by
      have h1 : pre ++ [hdr] ++
          (rest.takeWhile (fun l => !isTermL l)).map (replaceLine ms) ++
          (ms.filter (fun m =>
            !(((rest.takeWhile (fun l => !isTermL l)).map lineKey).contains
              (lineKey m)))).map indentL ++
          rest.dropWhile (fun l => !isTermL l) =
          pre ++ hdr ::
            ((rest.takeWhile (fun l => !isTermL l)).map (replaceLine ms) ++
            ((ms.filter (fun m =>
              !(((rest.takeWhile (fun l => !isTermL l)).map lineKey).contains
                (lineKey m)))).map indentL ++
            rest.dropWhile (fun l => !isTermL l))) := by
        simp [List.append_assoc]
      rw [h1]
      exact findHeader_of_first C pre hdr _ hpre hhdr
    simp only [stubUpdateClassL, hfind2]
    rw [takeWhile_append_all _ _ _ hrepall, takeWhile_append_all _ _ _ happall,
      hafterTD.1, List.append_nil,
      dropWhile_append_all _ _ _ hrepall, dropWhile_append_all _ _ _ happall,
      hafterTD.2]
    have hrep2 : ((rest.takeWhile (fun l => !isTermL l)).map (replaceLine ms) ++
        (ms.filter (fun m =>
          !(((rest.takeWhile (fun l => !isTermL l)).map lineKey).contains
            (lineKey m)))).map indentL).map (replaceLine ms) =
        (rest.takeWhile (fun l => !isTermL l)).map (replaceLine ms) ++
        (ms.filter (fun m =>
          !(((rest.takeWhile (fun l => !isTermL l)).map lineKey).contains
            (lineKey m)))).map indentL := by
      rw [List.map_append]
      congr 1
      · rw [List.map_map]
        apply List.map_congr_left
        intro b _
        exact replaceLine_idem ms b hnd
      · rw [List.map_map]
        apply List.map_congr_left
        intro m hm
        exact replaceLine_indent_mem ms m hnd (List.mem_filter.mp hm).1
    have hkeysrep : ((rest.takeWhile (fun l => !isTermL l)).map
        (replaceLine ms)).map lineKey =
        (rest.takeWhile (fun l => !isTermL l)).map lineKey := by
      rw [List.map_map]
      apply List.map_congr_left
      intro b _
      exact replaceLine_key ms b
    have happ2 : ms.filter (fun m =>
        !((((rest.takeWhile (fun l => !isTermL l)).map (replaceLine ms) ++
          (ms.filter (fun m2 =>
            !(((rest.takeWhile (fun l => !isTermL l)).map lineKey).contains
              (lineKey m2)))).map indentL).map lineKey).contains
          (lineKey m))) = [] := by
      rw [List.filter_eq_nil_iff]
      intro m hm
      have hmem2 : lineKey m ∈
          (((rest.takeWhile (fun l => !isTermL l)).map (replaceLine ms) ++
            (ms.filter (fun m2 =>
              !(((rest.takeWhile (fun l => !isTermL l)).map lineKey).contains
                (lineKey m2)))).map indentL).map lineKey) := by
        rw [List.map_append, hkeysrep]
        by_cases hmb : (((rest.takeWhile (fun l => !isTermL l)).map
            lineKey).contains (lineKey m)) = true
        · exact List.mem_append_left _ (List.mem_of_elem_eq_true hmb)
        · apply List.mem_append_right
          have hfalse : (((rest.takeWhile (fun l => !isTermL l)).map
              lineKey).contains (lineKey m)) = false := by
            cases h : (((rest.takeWhile (fun l => !isTermL l)).map
                lineKey).contains (lineKey m)) with
            | true => exact absurd h hmb
            | false => rfl
          have hmf : m ∈ ms.filter (fun m2 =>
              !(((rest.takeWhile (fun l => !isTermL l)).map lineKey).contains
                (lineKey m2))) :=
            List.mem_filter.mpr ⟨hm, by
              show (!(((rest.takeWhile (fun l => !isTermL l)).map
                lineKey).contains (lineKey m))) = true
              rw [hfalse]
              rfl⟩
          have hk := List.mem_map_of_mem lineKey
            (List.mem_map_of_mem indentL hmf)
          rw [lineKey_indent] at hk
          exact hk
      have hcon : (((rest.takeWhile (fun l => !isTermL l)).map (replaceLine ms) ++
          (ms.filter (fun m2 =>
            !(((rest.takeWhile (fun l => !isTermL l)).map lineKey).contains
              (lineKey m2)))).map indentL).map lineKey).contains (lineKey m) =
          true :=
        List.elem_eq_true_of_mem hmem2
      rw [hcon]
      simp
    rw [hrep2, happ2]
    simp

lemma no_newline_indent (m : List Char) (h : '\n' ∉ m) :
    '\n' ∉ indentL m := by
  simp [indentL]
  exact h

lemma no_newline_headerOf (C : List Char) (h : '\n' ∉ C) :
    '\n' ∉ headerOfC C := by
  simp [headerOfC]
  exact h

lemma no_newline_replaceLine (ms : List (List Char)) (l : List Char)
    (hl : '\n' ∉ l) (hms : ∀ m ∈ ms, '\n' ∉ m) :
    '\n' ∉ replaceLine ms l := by
  unfold replaceLine
  rcases hfind : ms.find? (fun m => lineKey m == lineKey l) with _ | m
  · exact hl
  · exact no_newline_indent m (hms m (List.mem_of_find?_eq_some hfind))

lemma stubUpdateClassL_no_newline (lines : List (List Char)) (C : List Char)
    (ms : List (List Char)) (hlines : ∀ l ∈ lines, '\n' ∉ l)
    (hC : '\n' ∉ C) (hms : ∀ m ∈ ms, '\n' ∉ m) :
    ∀ l ∈ stubUpdateClassL lines C ms, '\n' ∉ l := by
  intro l hl
  unfold stubUpdateClassL at hl
  rcases hfind : findHeader C lines with _ | ⟨pre, hdr, rest⟩ <;>
    rw [hfind] at hl
  · rcases List.mem_append.mp hl with h1 | h1
    · rcases List.mem_append.mp h1 with h2 | h2
      · exact hlines l h2
      · rw [List.mem_singleton.mp h2]
        exact no_newline_headerOf C hC
    · rcases List.mem_map.mp h1 with ⟨m, hm, he⟩
      rw [← he]
      exact no_newline_indent m (hms m hm)
  · obtain ⟨hls, -, -⟩ := findHeader_some_decomp C lines pre hdr rest hfind
    have hpre : ∀ x ∈ pre, '\n' ∉ x := by
      intro x hx
      exact hlines x (hls ▸ List.mem_append_left _ hx)
    have hrest : ∀ x ∈ rest, '\n' ∉ x := by
      intro x hx
      exact hlines x (hls ▸ List.mem_append_right _ (List.mem_cons_of_mem _ hx))
    simp only [List.mem_append] at hl
    rcases hl with ((((h1 | h1) | h1) | h1) | h1)
    · exact hpre l h1
    · rw [List.mem_singleton.mp h1]
      exact hlines hdr (hls ▸ List.mem_append_right _ (List.mem_cons_self _ _))
    · rcases List.mem_map.mp h1 with ⟨b, hb, he⟩
      rw [← he]
      exact no_newline_replaceLine ms b
        (hrest b (List.takeWhile_subset _ hb)) hms
    · rcases List.mem_map.mp h1 with ⟨m, hm, he⟩
      rw [← he]
      exact no_newline_indent m (hms m (List.mem_filter.mp hm).1)
    · exact hrest l (List.dropWhile_subset _ h1)

lemma stubUpdateClassL_ne_nil (lines : List (List Char)) (C : List Char)
    (ms : List (List Char)) : stubUpdateClassL lines C ms ≠ [] := by
  unfold stubUpdateClassL
  rcases findHeader C lines with _ | ⟨pre, hdr, rest⟩ <;> simp

/-- C9 (stub merge idempotence; `stubgen.py` is modelled from the spec):
merging the same class name and ordered method-stub-line list twice yields
the same persisted text as merging it once.  Hypotheses: the method lines
are single lines (no embedded newline) with pairwise-distinct matching
keys, and the class simple name contains no `(`, `:` or newline — the
well-formedness the spec assumes of a "class simple name" and
"method-stub-line list". -/
theorem stub_update_class_idempotent (T C : String) (M : List String)
    (hM : ∀ m ∈ M, '\n' ∉ m.data)
    (hC : ∀ c ∈ C.data, c ≠ '(' ∧ c ≠ ':' ∧ c ≠ '\n')
    (hkeys : (M.map (fun m => lineKey m.data)).Nodup) :
    stub_update_class (stub_update_class T C M) C M =
      stub_update_class T C M := by
  have hCline : ∀ c ∈ C.data, c ≠ '(' ∧ c ≠ ':' :=
    fun c hc => ⟨(hC c hc).1, (hC c hc).2.1⟩
  have hCnl : '\n' ∉ C.data := by
    intro hmem
    exact (hC '\n' hmem).2.2 rfl
  have hms : ∀ m ∈ M.map String.data, '\n' ∉ m := by
    intro m hm
    rcases List.mem_map.mp hm with ⟨s, hs, he⟩
    rw [← he]
    exact hM s hs
  have hnd : ((M.map String.data).map lineKey).Nodup := by
    rw [List.map_map]
    exact hkeys
  unfold stub_update_class
  have hdata : (String.mk (unlinesL (stubUpdateClassL (splitLinesL T.data)
      C.data (M.map String.data)))).data =
      unlinesL (stubUpdateClassL (splitLinesL T.data) C.data
        (M.map String.data)) := rfl
  rw [hdata]
  have hlines1 : ∀ l ∈ splitLinesL T.data, '\n' ∉ l :=
    splitCharL_mem '\n' T.data
  have hround : splitLinesL (unlinesL (stubUpdateClassL (splitLinesL T.data)
      C.data (M.map String.data))) =
      stubUpdateClassL (splitLinesL T.data) C.data (M.map String.data) :=
    splitLines_unlines _ (stubUpdateClassL_ne_nil _ _ _)
      (stubUpdateClassL_no_newline _ _ _ hlines1 hCnl hms)
  rw [hround, stubUpdateClassL_idem (splitLinesL T.data) C.data
    (M.map String.data) hCline hnd]

/-- Closed instance of C9 on one of the repository's stub-merge test
scenarios (docstring preserved, `old` replaced in place, `new`
appended). -/
theorem stub_update_class_idempotent_witness :
    stub_update_class (stub_update_class
        "class X:\n    \"\"\"docstring\"\"\"\n    def old(self): ..." "X"
        ["def old(self): ...", "def new(self): ..."]) "X"
      ["def old(self): ...", "def new(self): ..."] =
    stub_update_class
      "class X:\n    \"\"\"docstring\"\"\"\n    def old(self): ..." "X"
      ["def old(self): ...", "def new(self): ..."] :=
  stub_update_class_idempotent
    "class X:\n    \"\"\"docstring\"\"\"\n    def old(self): ..." "X"
    ["def old(self): ...", "def new(self): ..."]
    (by decide) (by decide) (by decide)
